import Mathlib

/-!
Verification of the atlas-conquest-analytics aggregation core.

This file is a shallow embedding of the repository's data-cleaning gate
(`scripts/fetch_data.py`, function `clean_game` and its coercion helpers)
and of the aggregation engine (`scripts/pipeline/aggregation.py`), with
theorems settling the behavioural claims about them.

Conventions of the embedding:
- Python dicts used as accumulators (`defaultdict`) are modelled as
  insertion-ordered association lists (`Assoc`): an update rewrites the
  value in place when the key is present and appends the key at the end
  otherwise, exactly like CPython dict semantics.
- Loosely typed raw fields (string-or-number-or-boolean) are modelled by
  the `PyVal` sum type, with one coercion function per coercion site of
  the source.
- Python `round` (banker's rounding) is modelled on `ℚ` by `pyRound`.
- Machine floats of the source (`duration_minutes`) are modelled as `ℚ`;
  the source only ever compares and divides these values, never relies on
  binary rounding of them.
-/

/-- Insertion-ordered association list, the model of a Python dict. -/
abbrev Assoc (κ : Type) (α : Type) := List (κ × α)

/-- Lookup in an association list (Python `d.get(k)`). -/
def lookA {κ α : Type} [DecidableEq κ] : Assoc κ α → κ → Option α
  | [], _ => none
  | (k, v) :: rest, k₀ => if k = k₀ then some v else lookA rest k₀

/-- Lookup with a default (Python `d.get(k, d0)` / `defaultdict` read). -/
def getA {κ α : Type} [DecidableEq κ] (m : Assoc κ α) (k : κ) (d : α) : α :=
  (lookA m k).getD d

/-- In-place update with default (Python `defaultdict` write `d[k] = f d[k]`):
rewrites the value when the key is present, appends the key otherwise. -/
def updA {κ α : Type} [DecidableEq κ] : Assoc κ α → κ → α → (α → α) → Assoc κ α
  | [], k, d, f => [(k, f d)]
  | (k₀, v) :: rest, k, d, f =>
      if k₀ = k then (k₀, f v) :: rest else (k₀, v) :: updA rest k d f

theorem lookA_updA {κ α : Type} [DecidableEq κ] (m : Assoc κ α) (k k₀ : κ) (d : α) (f : α → α) :
    lookA (updA m k d f) k₀ = if k = k₀ then some (f (getA m k d)) else lookA m k₀ := by
  induction m with
  | nil => simp [updA, lookA, getA]
  | cons e rest ih =>
      obtain ⟨k₁, v⟩ := e
      by_cases h1 : k₁ = k
      · subst h1
        by_cases h2 : k₁ = k₀ <;> simp [updA, lookA, getA, h2]
      · by_cases h2 : k₁ = k₀
        · subst h2
          simp [updA, lookA, getA, h1, Ne.symm h1]
        · simp [updA, lookA, getA, h1, h2, ih]

theorem getA_updA {κ α : Type} [DecidableEq κ] (m : Assoc κ α) (k k₀ : κ) (d : α) (f : α → α) :
    getA (updA m k d f) k₀ d = if k = k₀ then f (getA m k d) else getA m k₀ d := by
  unfold getA
  rw [lookA_updA]
  by_cases h : k = k₀ <;> simp [h, getA]

theorem lookA_map {κ α β : Type} [DecidableEq κ] (m : Assoc κ α) (g : α → β) (k : κ) :
    lookA (m.map (fun e => (e.1, g e.2))) k = (lookA m k).map g := by
  induction m with
  | nil => simp [lookA]
  | cons e rest ih =>
      by_cases h : e.1 = k <;> simp [lookA, h, ih]

/-- A loosely typed raw field value as delivered by the upstream store:
the same logical field may arrive as an int, a string or a boolean. -/
inductive PyVal : Type
  | pInt (n : ℤ)
  | pStr (s : String)
  | pBool (b : Bool)
deriving DecidableEq

/-- Python `str(v)` on a raw value. -/
def pyStr : PyVal → String
  | .pInt n => toString n
  | .pStr s => s
  | .pBool b => if b then "True" else "False"

/-- Integer coercion used by the cleaner for `turnsTaken` / `actionsTaken` /
`numPlayers` (`int(v) if v.isdigit() else 0` on strings; Python booleans
count as the ints 0/1). -/
def coerceIntLike : PyVal → ℤ
  | .pInt n => n
  | .pStr s => match s.toNat? with | some n => (n : ℤ) | none => 0
  | .pBool b => if b then 1 else 0

/-- Count coercion of card entries (`int(v) if v.isdigit() else 1`). -/
def coerceCount : PyVal → ℤ
  | .pInt n => n
  | .pStr s => match s.toNat? with | some n => (n : ℤ) | none => 1
  | .pBool b => if b then 1 else 0

/-- Python `str.lower`, modelled character-wise (the strings compared by
the cleaner are ASCII, where this is exact). -/
def pyLower (s : String) : String := ⟨s.data.map Char.toLower⟩

/-- Winner coercion (src/scripts/fetch_data.py lines 359-361): a native
boolean passes through; a string is true exactly when it lowercases to
`"true"`; an int keeps its Python truthiness. -/
def coerce_winner : PyVal → Bool
  | .pBool b => b
  | .pStr s => pyLower s = "true"
  | .pInt n => n ≠ 0

/-- Commander rename table (src/scripts/pipeline/constants.py). -/
def COMMANDER_RENAMES : Assoc String String :=
  [("Elber, Jungle Emmisary", "Elber, Jungle Emissary"),
   ("Layna, Soulcatcher", "Soultaker Viessa"),
   ("Lyre, Tactician of the Order", "Elyse of the Order")]

/-- Card rename table (empty in the current revision). -/
def CARD_RENAMES : Assoc String String := []

/-- `normalize_commander`: rename-table lookup, pass-through when unmatched
or empty. -/
def normalize_commander (name : String) : String :=
  if name = "" then name else (lookA COMMANDER_RENAMES name).getD name

/-- `normalize_card`: rename-table lookup, pass-through when unmatched or
empty. -/
def normalize_card (name : String) : String :=
  if name = "" then name else (lookA CARD_RENAMES name).getD name

/-- A parsed wall-clock timestamp (the result of `datetime.strptime`). -/
structure DT where
  year : ℕ
  month : ℕ
  day : ℕ
  hour : ℕ
  minute : ℕ
  second : ℕ
deriving DecidableEq

/-- Leap-year test of the proleptic Gregorian calendar. -/
def isLeap (y : ℕ) : Bool := (y % 4 = 0 && y % 100 ≠ 0) || y % 400 = 0

/-- Number of days of a month (`m` is 1-based). -/
def daysInMonth (y m : ℕ) : ℕ :=
  match m with
  | 1 => 31 | 2 => if isLeap y then 29 else 28 | 3 => 31 | 4 => 30
  | 5 => 31 | 6 => 30 | 7 => 31 | 8 => 31 | 9 => 30 | 10 => 31
  | 11 => 30 | 12 => 31 | _ => 0

/-- Parse a decimal field of `lmin`..`lmax` digits whose value lies in
`lo`..`hi` (the per-directive validation of `strptime`). -/
def parseNumIn (s : String) (lmin lmax lo hi : ℕ) : Option ℕ :=
  if lmin ≤ s.length ∧ s.length ≤ lmax then
    match s.toNat? with
    | some n => if lo ≤ n ∧ n ≤ hi then some n else none
    | none => none
  else none

/-- `parse_datetime`: parse `"MM/DD/YYYY HH:MM:SS"` (strptime under the
fixed format of the source), `none` on empty input or parse failure. -/
def parse_datetime (dt_str : String) : Option DT :=
  if dt_str = "" then none
  else
    match dt_str.trim.splitOn " " with
    | [datePart, timePart] =>
      match datePart.splitOn "/", timePart.splitOn ":" with
      | [ms, ds, ys], [hs, mis, ss] =>
        match parseNumIn ms 1 2 1 12, parseNumIn ds 1 2 1 31, parseNumIn ys 4 4 0 9999,
              parseNumIn hs 1 2 0 23, parseNumIn mis 1 2 0 59, parseNumIn ss 1 2 0 59 with
        | some m, some d, some y, some h, some mi, some s =>
            if d ≤ daysInMonth y m then some ⟨y, m, d, h, mi, s⟩ else none
        | _, _, _, _, _, _ => none
      | _, _ => none
    | _ => none

/-- Days since 1970-01-01 of a civil date (standard civil-from-days
computation; all divisions here agree between truncating and flooring
division for the operand ranges produced by `parse_datetime`). -/
def daysFromCivil (y : ℤ) (m d : ℕ) : ℤ :=
  let yy : ℤ := if m ≤ 2 then y - 1 else y
  let era : ℤ := (if 0 ≤ yy then yy else yy - 399) / 400
  let yoe : ℤ := yy - era * 400
  let mp : ℤ := ((m : ℤ) + 9) % 12
  let doy : ℤ := (153 * mp + 2) / 5 + (d : ℤ) - 1
  let doe : ℤ := yoe * 365 + yoe / 4 - yoe / 100 + doy
  era * 146097 + doe - 719468

/-- Seconds since the epoch of a parsed timestamp (`datetime` subtraction
in the source reduces to differences of this quantity). -/
def epochSecs (t : DT) : ℤ :=
  daysFromCivil (t.year : ℤ) t.month t.day * 86400 + (t.hour : ℤ) * 3600
    + (t.minute : ℤ) * 60 + (t.second : ℤ)

/-- Zero-pad a natural number to two digits. -/
def pad2 (n : ℕ) : String := if n < 10 then "0" ++ toString n else toString n

/-- Zero-pad a natural number to four digits. -/
def pad4 (n : ℕ) : String :=
  if n < 10 then "000" ++ toString n
  else if n < 100 then "00" ++ toString n
  else if n < 1000 then "0" ++ toString n
  else toString n

/-- `datetime.isoformat()` of a parsed timestamp. -/
def isoformat (t : DT) : String :=
  pad4 t.year ++ "-" ++ pad2 t.month ++ "-" ++ pad2 t.day ++ "T"
    ++ pad2 t.hour ++ ":" ++ pad2 t.minute ++ ":" ++ pad2 t.second

/-- Round a rational to the nearest integer, ties to even (the rounding of
Python `round`). -/
def roundHalfEven (x : ℚ) : ℤ :=
  let f : ℤ := ⌊x⌋
  let r : ℚ := x - (f : ℚ)
  if r < 1/2 then f
  else if (1 : ℚ)/2 < r then f + 1
  else if f % 2 = 0 then f else f + 1

/-- Python `round(x, digits)`, modelled exactly on `ℚ`. -/
def pyRound (x : ℚ) (digits : ℕ) : ℚ :=
  ((roundHalfEven (x * (10 : ℚ) ^ digits) : ℤ) : ℚ) / (10 : ℚ) ^ digits

/-- One `{name, count}` entry of a cleaned card list. -/
structure CardEntry where
  name : String
  count : ℤ
deriving DecidableEq

/-- A cleaned player record (one per player of a cleaned game). -/
structure Player where
  name : String
  winner : Bool
  commander : String
  deck_name : String
  turns : ℤ
  actions : ℤ
  cards_in_deck : List CardEntry
  cards_drawn : List CardEntry
  cards_played : List CardEntry
deriving DecidableEq

/-- A cleaned game record, the unit of all aggregation. -/
structure Game where
  game_id : String
  datetime : Option String
  datetime_started : Option String
  duration_minutes : Option ℚ
  map : String
  format : String
  first_player : String
  players : List Player
deriving DecidableEq

/-- A raw `{CardName, Count}` entry of the decoded player payload
(`CardName` read with default `""`, `Count` with default `1`). -/
structure RawCard where
  CardName : String
  Count : Option PyVal
deriving DecidableEq

/-- The raw decklist of a player (`_commander`, `_name` and `_cards` keys,
read with defaults `""`, `""`, `[]`). -/
structure RawDecklist where
  dl_commander : String
  dl_name : String
  dl_cards : List RawCard
deriving DecidableEq

/-- A raw player of the decoded payload. -/
structure RawPlayer where
  rp_name : String
  winner : Option PyVal
  decklist : RawDecklist
  turnsTaken : Option PyVal
  actionsTaken : Option PyVal
  cardsDrawn : List RawCard
  cardsPlayed : List RawCard
deriving DecidableEq

/-- The decoded players payload: `numPlayers` (read with default `0`) and
the `players` sequence. -/
structure PlayersData where
  numPlayers : Option PyVal
  pd_players : List RawPlayer
deriving DecidableEq

/-- A raw record as handed to `clean_game`. The embedded players payload is
modelled after `parse_players_json`: `rr_players = none` stands for a
decode failure or a falsy decode result, `some pd` for a successful
decode. String fields absent upstream arrive as their `get` defaults. -/
structure RawRecord where
  gameid : String
  firstPlayer : Option PyVal
  rr_datetime : String
  rr_datetimeStarted : String
  rr_players : Option PlayersData
  rr_map : String
  rr_format : String
deriving DecidableEq

/-- Clean one raw card list: normalize names, coerce counts (default 1),
drop entries whose normalized name is empty. -/
def cleanCards (cs : List RawCard) : List CardEntry :=
  cs.filterMap (fun c =>
    let nm := normalize_card c.CardName
    if nm = "" then none
    else some ⟨nm, coerceCount (c.Count.getD (.pInt 1))⟩)

/-- `clean_game` (src/scripts/fetch_data.py lines 307-418): parse a raw
record into a clean game, `none` when any validation gate rejects it.
`MIN_TURNS` is the module-level minimum-turns threshold (2 in
`fetch_data.py`, 3 in `pipeline/constants.py`), taken here as an explicit
parameter since the spec treats it as configuration. -/
def clean_game (MIN_TURNS : ℤ) (raw : RawRecord) : Option Game :=
  let first_player := pyStr (raw.firstPlayer.getD (.pStr "0"))
  if first_player = "0" then none
  else
    let dt_end := parse_datetime raw.rr_datetime
    let dt_start := parse_datetime raw.rr_datetimeStarted
    match raw.rr_players with
    | none => none
    | some pd =>
      let num_players := coerceIntLike (pd.numPlayers.getD (.pInt 0))
      if num_players < 2 then none
      else if pd.pd_players.length < 2 then none
      else if pd.pd_players.any
          (fun p => coerceIntLike (p.turnsTaken.getD (.pInt 0)) < MIN_TURNS) then none
      else
        let clean_players : List Player := pd.pd_players.map (fun p =>
          { name := p.rp_name
            winner := coerce_winner (p.winner.getD (.pBool false))
            commander := normalize_commander p.decklist.dl_commander
            deck_name := p.decklist.dl_name
            turns := coerceIntLike (p.turnsTaken.getD (.pInt 0))
            actions := coerceIntLike (p.actionsTaken.getD (.pInt 0))
            cards_in_deck := cleanCards p.decklist.dl_cards
            cards_drawn := cleanCards p.cardsDrawn
            cards_played := cleanCards p.cardsPlayed })
        let duration : Option ℚ :=
          match dt_start, dt_end with
          | some s, some e =>
              let diff : ℤ := epochSecs e - epochSecs s
              if 0 < diff then some (pyRound ((diff : ℚ) / 60) 1) else none
          | _, _ => none
        some {
          game_id := raw.gameid
          datetime := dt_end.map isoformat
          datetime_started := dt_start.map isoformat
          duration_minutes := duration
          map := raw.rr_map
          format := raw.rr_format
          first_player := first_player
          players := clean_players }

/-- Stable insertion of `x` into `l`, placing `x` before the first element
`y` with `le x y`. -/
def orderedInsertBy {α : Type} (le : α → α → Bool) (x : α) : List α → List α
  | [] => [x]
  | y :: ys => if le x y then x :: y :: ys else y :: orderedInsertBy le x ys

/-- Stable insertion sort by a boolean "less or equal" test (the model of
Python `sorted` / `list.sort` with a key). -/
def insertionSortBy {α : Type} (le : α → α → Bool) : List α → List α
  | [] => []
  | x :: xs => orderedInsertBy le x (insertionSortBy le xs)

/-- Per-commander tallies of `aggregate_commander_stats` (default entry
`{"matches": 0, "wins": 0, "faction": ""}`). -/
structure CmdStat where
  «matches» : ℕ
  wins : ℕ
  faction : String
deriving DecidableEq

/-- `aggregate_commander_stats`: per-commander appearance and win counts
over all player-appearances with a non-empty commander.  The source line
`stats[cmd]["faction"] = stats[cmd]["faction"] or ""` leaves the faction
field unchanged (it is always a string, and `s or ""` is `s` for `s = ""`
too), so it is modelled as the identity on that field. -/
def aggregate_commander_stats (games : List Game) : Assoc String CmdStat :=
  games.foldl (fun m g =>
    g.players.foldl (fun m p =>
      if p.commander = "" then m
      else updA m p.commander ⟨0, 0, ""⟩ (fun s =>
        { «matches» := s.«matches» + 1
          faction := s.faction
          wins := if p.winner then s.wins + 1 else s.wins })) m) []

/-- One directed cell of the matchup matrix. -/
structure MCell where
  wins : ℕ
  losses : ℕ
deriving DecidableEq

/-- The matchup matrix: a dict of dicts of cells. -/
abbrev Matchups := Assoc String (Assoc String MCell)

/-- `matchups[a][b] = f matchups[a][b]` under `defaultdict` semantics. -/
def upd2 (m : Matchups) (a b : String) (f : MCell → MCell) : Matchups :=
  updA m a [] (fun inner => updA inner b ⟨0, 0⟩ f)

/-- Read a cell of the matrix under `defaultdict` semantics (absent cells
are zero), exactly how `build_and_write_all` reads `matchup_raw[c1][c2]`. -/
def getCell (m : Matchups) (a b : String) : MCell :=
  getA (getA m a []) b ⟨0, 0⟩

/-- One game's contribution to the matchup matrix: 2-player games only,
both commanders non-empty; a win for one side records a directed win and
the mirrored directed loss. -/
def matchupStep (m : Matchups) (g : Game) : Matchups :=
  match g.players with
  | [p1, p2] =>
    let c1 := p1.commander
    let c2 := p2.commander
    if c1 = "" ∨ c2 = "" then m
    else if p1.winner then
      upd2 (upd2 m c1 c2 (fun c => { c with wins := c.wins + 1 }))
        c2 c1 (fun c => { c with losses := c.losses + 1 })
    else if p2.winner then
      upd2 (upd2 m c2 c1 (fun c => { c with wins := c.wins + 1 }))
        c1 c2 (fun c => { c with losses := c.losses + 1 })
    else m
  | _ => m

/-- `aggregate_matchups`: the commander-vs-commander win/loss matrix. -/
def aggregate_matchups (games : List Game) : Matchups :=
  games.foldl matchupStep []

/-- Per-card tallies within one matchup direction. -/
structure CardWR where
  played : ℕ
  played_wins : ℕ
  drawn : ℕ
  drawn_wins : ℕ
deriving DecidableEq

/-- The tracking record of one ordered matchup direction. -/
structure MDData where
  wins : ℕ
  losses : ℕ
  cmd_first_games : ℕ
  cmd_first_wins : ℕ
  opp_first_games : ℕ
  opp_first_wins : ℕ
  cmd_cards : Assoc String CardWR
  opp_cards : Assoc String CardWR
deriving DecidableEq

/-- The `defaultdict` default of `aggregate_matchup_details`. -/
def mdDefault : MDData := ⟨0, 0, 0, 0, 0, 0, [], []⟩

/-- `matchup_data[key] = f matchup_data[key]`. -/
def mdUpd (m : Assoc (String × String) MDData) (k : String × String)
    (f : MDData → MDData) : Assoc (String × String) MDData :=
  updA m k mdDefault f

/-- Bump one card counter on the commander (`cmdSide = true`) or opponent
side of a matchup direction. -/
def mdCardUpd (m : Assoc (String × String) MDData) (k : String × String)
    (cmdSide : Bool) (nm : String) (f : CardWR → CardWR) :
    Assoc (String × String) MDData :=
  mdUpd m k (fun d =>
    if cmdSide then { d with cmd_cards := updA d.cmd_cards nm ⟨0, 0, 0, 0⟩ f }
    else { d with opp_cards := updA d.opp_cards nm ⟨0, 0, 0, 0⟩ f })

/-- Track one player's played and drawn card lists into both directions of
the matchup (the four per-card loops of the source, for one player). -/
def mdCardLoops (m : Assoc (String × String) MDData)
    (keyCmd keyOpp : String × String) (p : Player) (won : Bool) :
    Assoc (String × String) MDData :=
  let m := p.cards_played.foldl (fun m c =>
    let m := mdCardUpd m keyCmd true c.name (fun w => { w with played := w.played + 1 })
    let m := mdCardUpd m keyOpp false c.name (fun w => { w with played := w.played + 1 })
    if won then
      let m := mdCardUpd m keyCmd true c.name (fun w => { w with played_wins := w.played_wins + 1 })
      mdCardUpd m keyOpp false c.name (fun w => { w with played_wins := w.played_wins + 1 })
    else m) m
  p.cards_drawn.foldl (fun m c =>
    let m := mdCardUpd m keyCmd true c.name (fun w => { w with drawn := w.drawn + 1 })
    let m := mdCardUpd m keyOpp false c.name (fun w => { w with drawn := w.drawn + 1 })
    if won then
      let m := mdCardUpd m keyCmd true c.name (fun w => { w with drawn_wins := w.drawn_wins + 1 })
      mdCardUpd m keyOpp false c.name (fun w => { w with drawn_wins := w.drawn_wins + 1 })
    else m) m

/-- One game's contribution to the matchup-details tracking map. -/
def mdStep (m : Assoc (String × String) MDData) (g : Game) :
    Assoc (String × String) MDData :=
  match g.players with
  | [p1, p2] =>
    let c1 := p1.commander
    let c2 := p2.commander
    if c1 = "" ∨ c2 = "" then m
    else
      let p1_won := p1.winner
      let p2_won := p2.winner
      let key1 := (c1, c2)
      let key2 := (c2, c1)
      let m := if p1_won then mdUpd m key1 (fun d => { d with wins := d.wins + 1 })
               else if p2_won then mdUpd m key1 (fun d => { d with losses := d.losses + 1 })
               else m
      let m := if p2_won then mdUpd m key2 (fun d => { d with wins := d.wins + 1 })
               else if p1_won then mdUpd m key2 (fun d => { d with losses := d.losses + 1 })
               else m
      let m :=
        if g.first_player = "1" then
          let m := mdUpd m key1 (fun d => { d with cmd_first_games := d.cmd_first_games + 1 })
          let m := mdUpd m key2 (fun d => { d with opp_first_games := d.opp_first_games + 1 })
          if p1_won then
            let m := mdUpd m key1 (fun d => { d with cmd_first_wins := d.cmd_first_wins + 1 })
            mdUpd m key2 (fun d => { d with opp_first_wins := d.opp_first_wins + 1 })
          else m
        else if g.first_player = "2" then
          let m := mdUpd m key1 (fun d => { d with opp_first_games := d.opp_first_games + 1 })
          let m := mdUpd m key2 (fun d => { d with cmd_first_games := d.cmd_first_games + 1 })
          if p2_won then
            let m := mdUpd m key1 (fun d => { d with opp_first_wins := d.opp_first_wins + 1 })
            mdUpd m key2 (fun d => { d with cmd_first_wins := d.cmd_first_wins + 1 })
          else m
        else m
      let m := mdCardLoops m key1 key2 p1 p1_won
      mdCardLoops m key2 key1 p2 p2_won
  | _ => m

/-- One ranked card of a matchup-details record. -/
structure TopCard where
  name : String
  played : ℕ
  played_winrate : ℚ
  drawn : ℕ
  drawn_winrate : Option ℚ
deriving DecidableEq

/-- `top_cards`: cards with at least 3 played games, ranked by descending
played-winrate then descending play count, truncated to 10. -/
def top_cards (card_dict : Assoc String CardWR) : List TopCard :=
  let cards : List TopCard := card_dict.filterMap (fun e =>
    if e.2.played < 3 then none
    else some ⟨e.1, e.2.played, pyRound ((e.2.played_wins : ℚ) / (e.2.played : ℚ)) 4,
               e.2.drawn,
               if 0 < e.2.drawn then some (pyRound ((e.2.drawn_wins : ℚ) / (e.2.drawn : ℚ)) 4)
               else none⟩)
  (insertionSortBy (fun a b =>
    decide (b.played_winrate < a.played_winrate)
      || (decide (a.played_winrate = b.played_winrate) && decide (b.played ≤ a.played))) cards).take 10

/-- The first-turn block of one matchup-details output record. -/
structure FirstTurnSplit where
  cmd_first_games : ℕ
  cmd_first_wins : ℕ
  opp_first_games : ℕ
  opp_first_wins : ℕ
deriving DecidableEq

/-- One output record of `aggregate_matchup_details`. -/
structure MatchupDetail where
  commander : String
  opponent : String
  wins : ℕ
  losses : ℕ
  total : ℕ
  winrate : ℚ
  first_turn : FirstTurnSplit
  cmd_cards : List TopCard
  opp_cards : List TopCard
deriving DecidableEq

/-- `aggregate_matchup_details`: per ordered matchup direction, win/loss
counts, first-turn splits and ranked card lists; directions with no
decided game are dropped; the empty collection returns `[]` early. -/
def aggregate_matchup_details (games : List Game) : List MatchupDetail :=
  if games = [] then []
  else
    (games.foldl mdStep []).filterMap (fun e =>
      let data := e.2
      let total := data.wins + data.losses
      if total < 1 then none
      else some ⟨e.1.1, e.1.2, data.wins, data.losses, total,
                 pyRound ((data.wins : ℚ) / (total : ℚ)) 4,
                 ⟨data.cmd_first_games, data.cmd_first_wins,
                  data.opp_first_games, data.opp_first_wins⟩,
                 top_cards data.cmd_cards, top_cards data.opp_cards⟩)

/-- Per-card tallies of `aggregate_card_stats` (the `defaultdict` entry of
the source, in field order). -/
structure CardData where
  deck_count : ℕ
  deck_wins : ℕ
  drawn_count : ℕ
  drawn_wins : ℕ
  played_count : ℕ
  played_wins : ℕ
  total_copies : ℤ
  drawn_instances : ℤ
  played_instances : ℤ
deriving DecidableEq

/-- The zero entry of the card-stats `defaultdict`. -/
def cdDefault : CardData := ⟨0, 0, 0, 0, 0, 0, 0, 0, 0⟩

/-- One player-appearance's contribution to the per-card map: one count
per list entry in deck/drawn/played, copies and instances weighted by the
entry's `count`, win tallies when the player won. -/
def card_data_step (m : Assoc String CardData) (p : Player) : Assoc String CardData :=
  let won := p.winner
  let m := p.cards_in_deck.foldl (fun m c =>
    updA m c.name cdDefault (fun d =>
      { d with deck_count := d.deck_count + 1
               total_copies := d.total_copies + c.count
               deck_wins := if won then d.deck_wins + 1 else d.deck_wins })) m
  let m := p.cards_drawn.foldl (fun m c =>
    updA m c.name cdDefault (fun d =>
      { d with drawn_count := d.drawn_count + 1
               drawn_instances := d.drawn_instances + c.count
               drawn_wins := if won then d.drawn_wins + 1 else d.drawn_wins })) m
  p.cards_played.foldl (fun m c =>
    updA m c.name cdDefault (fun d =>
      { d with played_count := d.played_count + 1
               played_instances := d.played_instances + c.count
               played_wins := if won then d.played_wins + 1 else d.played_wins })) m

/-- The per-card map accumulated over every player-appearance of every
game (the loop body of `aggregate_card_stats`). -/
def card_data_fold (games : List Game) : Assoc String CardData :=
  games.foldl (fun m g => g.players.foldl card_data_step m) []

/-- The return value of `aggregate_card_stats`: the source returns the
empty list for an empty input and a `(card_data, total_player_games)`
tuple otherwise. -/
inductive CardStatsResult : Type
  | emptyList
  | tuple (card_data : Assoc String CardData) (total_player_games : ℕ)
deriving DecidableEq

/-- `aggregate_card_stats`: per-card play/drawn/deck tallies plus the
total player-appearance count (`len(games) * 2`). -/
def aggregate_card_stats (games : List Game) : CardStatsResult :=
  let total_games := games.length
  if total_games = 0 then .emptyList
  else .tuple (card_data_fold games) (total_games * 2)

/-- Monday-based weekday (Monday = 0) of a civil date. -/
def weekdayMon (y : ℤ) (m d : ℕ) : ℕ := ((daysFromCivil y m d + 3) % 7).toNat

/-- 1-based ordinal day of the year of a civil date. -/
def dayOfYear (y m d : ℕ) : ℕ :=
  (List.range (m - 1)).foldl (fun acc i => acc + daysInMonth y (i + 1)) 0 + d

/-- The `%W` week number of `strftime`: weeks start on Monday, days before
the first Monday of the year fall in week 0. -/
def weekW (y m d : ℕ) : ℕ :=
  let wd := weekdayMon (y : ℤ) m d
  let dy := dayOfYear y m d
  if wd < dy then (dy - wd - 1) / 7 + 1 else 0

/-- The `"%Y-W%W"` weekly bucket key of the trend aggregators. -/
def formatWeekKey (y m d : ℕ) : String := pad4 y ++ "-W" ++ pad2 (weekW y m d)

/-- Parse the civil date of an ISO-8601 timestamp (the use the source
makes of `datetime.fromisoformat`: the cleaned `datetime` strings are
exactly `isoformat` output, and only the date part feeds `%W`). -/
def parseIso (s : String) : Option (ℕ × ℕ × ℕ) :=
  match (s.take 10).splitOn "-" with
  | [ys, ms, dds] =>
    match parseNumIn ys 4 4 0 9999, parseNumIn ms 2 2 1 12, parseNumIn dds 2 2 1 31 with
    | some y, some mo, some d =>
      if d ≤ daysInMonth y mo then
        let rest := s.drop 10
        if rest = "" then some (y, mo, d)
        else
          match (rest.drop 1).splitOn ":" with
          | [hs, mis, ss] =>
            match parseNumIn hs 2 2 0 23, parseNumIn mis 2 2 0 59, parseNumIn ss 2 2 0 59 with
            | some _, some _, some _ => some (y, mo, d)
            | _, _, _ => none
          | _ => none
      else none
    | _, _, _ => none
  | _ => none

/-- The weekly bucket key of a game's `datetime` field: `none` when the
field is absent, empty, or fails to parse (the `continue` cases of the
trend loops). -/
def weekKeyOf (dt : Option String) : Option String :=
  match dt with
  | none => none
  | some s =>
    if s = "" then none
    else
      match parseIso s with
      | none => none
      | some (y, m, d) => some (formatWeekKey y m d)

/-- `aggregate_trends`: weekly per-commander pick counts and weekly
totals, over player-appearances with a non-empty commander. -/
def aggregate_trends (games : List Game) :
    Assoc String (Assoc String ℕ) × Assoc String ℕ :=
  games.foldl (fun acc g =>
    match weekKeyOf g.datetime with
    | none => acc
    | some week =>
      g.players.foldl (fun acc p =>
        if p.commander = "" then acc
        else (updA acc.1 week [] (fun inner => updA inner p.commander 0 (· + 1)),
              updA acc.2 week 0 (· + 1))) acc) ([], [])

/-- Per-commander first/second tallies of `aggregate_first_turn`. -/
structure FTCmd where
  first_games : ℕ
  first_wins : ℕ
  second_games : ℕ
  second_wins : ℕ
deriving DecidableEq

/-- One per-commander output record of `aggregate_first_turn`. -/
structure FTCmdOut where
  first_games : ℕ
  first_wins : ℕ
  first_winrate : Option ℚ
  second_games : ℕ
  second_wins : ℕ
  second_winrate : Option ℚ
deriving DecidableEq

/-- The output of `aggregate_first_turn`. -/
structure FTResult where
  total_games : ℕ
  first_player_wins : ℕ
  first_player_winrate : Option ℚ
  per_commander : Assoc String FTCmdOut
deriving DecidableEq

/-- A game is first-turn-eligible when `first_player` is explicitly `"1"`
or `"2"`. -/
def eligibleFP (g : Game) : Bool := g.first_player == "1" || g.first_player == "2"

/-- One eligible game's contribution to first-player-win and
per-commander first/second tallies: games without exactly two players are
skipped; the first/second role comes from `first_player`. -/
def ftStep (acc : ℕ × Assoc String FTCmd) (g : Game) : ℕ × Assoc String FTCmd :=
  match g.players with
  | [q1, q2] =>
    match (if g.first_player = "1" then some (q1, q2)
           else if g.first_player = "2" then some (q2, q1)
           else none) with
    | none => acc
    | some (fp, sp) =>
      let fw := acc.1 + (if fp.winner then 1 else 0)
      let m := acc.2
      let m := if fp.commander = "" then m
        else updA m fp.commander ⟨0, 0, 0, 0⟩ (fun s =>
          { s with first_games := s.first_games + 1
                   first_wins := s.first_wins + (if fp.winner then 1 else 0) })
      let m := if sp.commander = "" then m
        else updA m sp.commander ⟨0, 0, 0, 0⟩ (fun s =>
          { s with second_games := s.second_games + 1
                   second_wins := s.second_wins + (if sp.winner then 1 else 0) })
      (fw, m)
  | _ => acc

/-- The per-commander output record of `aggregate_first_turn` (the dict
built in its final loop): the tallies plus guarded rounded winrates. -/
def ftOutOf (s : FTCmd) : FTCmdOut :=
  { first_games := s.first_games
    first_wins := s.first_wins
    first_winrate := if 0 < s.first_games
      then some (pyRound ((s.first_wins : ℚ) / (s.first_games : ℚ)) 4) else none
    second_games := s.second_games
    second_wins := s.second_wins
    second_winrate := if 0 < s.second_games
      then some (pyRound ((s.second_wins : ℚ) / (s.second_games : ℚ)) 4) else none }

/-- `aggregate_first_turn`: first-player advantage over games whose
`first_player` is explicitly `"1"` or `"2"`. -/
def aggregate_first_turn (games : List Game) : FTResult :=
  let fp_games := games.filter (fun g => eligibleFP g)
  let total := fp_games.length
  if total = 0 then ⟨0, 0, none, []⟩
  else
    let res := fp_games.foldl ftStep (0, [])
    let per_commander : Assoc String FTCmdOut := res.2.map (fun e => (e.1, ftOutOf e.2))
    ⟨total, res.1,
     if 0 < total then some (pyRound ((res.1 : ℚ) / (total : ℚ)) 4) else none,
     per_commander⟩

/-- Append `v c` to the series of every commander of `cs`, in order (the
inner `for cmd in all_cmds: series[cmd].append(...)` loops of the trend
aggregators). -/
def appendAll {α : Type} (m : Assoc String (List α)) (cs : List String)
    (v : String → α) : Assoc String (List α) :=
  cs.foldl (fun m c => updA m c [] (fun l => l ++ [v c])) m

/-- Output of `aggregate_commander_trends`: included week keys and one
usage-percentage series per commander. -/
structure CTrends where
  dates : List String
  commanders : Assoc String (List ℚ)
deriving DecidableEq

/-- `aggregate_commander_trends`: weekly per-commander usage percentage;
weeks with fewer than 4 picks are excluded; every commander seen in any
week gets one series entry per included week.  The iteration order of the
Python `set` of commanders is modelled as first-occurrence order, which
only permutes dict insertion order, not any series. -/
def aggregate_commander_trends (games : List Game) : CTrends :=
  let wk := aggregate_trends games
  let weekly := wk.1
  let weekly_total := wk.2
  let sorted_weeks := insertionSortBy (fun a b => decide (a < b) || a == b) (weekly.map (·.1))
  let all_cmds := (weekly.map (fun e => e.2.map (·.1))).flatten.dedup
  let fin := sorted_weeks.foldl (fun acc week =>
    let total := getA weekly_total week 0
    if total < 4 then acc
    else (acc.1 ++ [week],
          appendAll acc.2 all_cmds (fun cmd =>
            let cnt : ℕ := getA (getA weekly week []) cmd 0
            if 0 < total
            then pyRound (((cnt : ℚ) / (total : ℚ)) * 100) 1
            else 0))) (([], []) : List String × Assoc String (List ℚ))
  ⟨fin.1, fin.2⟩

/-- Weekly per-commander tallies of `aggregate_commander_winrate_trends`
(wins/total, and the same excluding mirror matches). -/
structure WT4 where
  w : ℕ
  t : ℕ
  w_nm : ℕ
  t_nm : ℕ
deriving DecidableEq

/-- The four series of one commander in the winrate-trend output. -/
structure WTSeries where
  winrate : List (Option ℚ)
  games : List ℕ
  winrate_no_mirror : List (Option ℚ)
  games_no_mirror : List ℕ
deriving DecidableEq

/-- Output of `aggregate_commander_winrate_trends`. -/
structure WTrends where
  dates : List String
  commanders : Assoc String WTSeries
deriving DecidableEq

/-- One game's contribution to the weekly winrate tallies: dated 2-player
games only; each named commander's week bucket counts the appearance, the
win, and the same excluding mirror matches. -/
def wtStep (acc : Assoc String (Assoc String WT4) × Assoc String ℕ) (g : Game) :
    Assoc String (Assoc String WT4) × Assoc String ℕ :=
  match weekKeyOf g.datetime with
  | none => acc
  | some week =>
    match g.players with
    | [p1, p2] =>
      let is_mirror := p1.commander = p2.commander
      let acc := (acc.1, updA acc.2 week 0 (· + 1))
      [p1, p2].foldl (fun acc p =>
        if p.commander = "" then acc
        else
          (updA acc.1 week [] (fun inner =>
            updA inner p.commander ⟨0, 0, 0, 0⟩ (fun b =>
              let b := { b with t := b.t + 1, w := if p.winner then b.w + 1 else b.w }
              if is_mirror then b
              else { b with t_nm := b.t_nm + 1, w_nm := if p.winner then b.w_nm + 1 else b.w_nm })),
           acc.2)) acc
    | _ => acc

/-- `aggregate_commander_winrate_trends`: weekly winrate (with and without
mirror matches) per commander; weeks with fewer than 4 dated 2-player
games are excluded; every commander seen in any week has all four series,
one entry per included week. -/
def aggregate_commander_winrate_trends (games : List Game) : WTrends :=
  let wk := games.foldl wtStep ([], [])
  let weekly := wk.1
  let weekly_total := wk.2
  let sorted_weeks := insertionSortBy (fun a b => decide (a < b) || a == b) (weekly.map (·.1))
  let all_cmds := (weekly.map (fun e => e.2.map (·.1))).flatten.dedup
  let commanders0 : Assoc String WTSeries := all_cmds.map (fun c => (c, ⟨[], [], [], []⟩))
  let fin := sorted_weeks.foldl (fun acc week =>
    if getA weekly_total week 0 < 4 then acc
    else (acc.1 ++ [week],
          all_cmds.foldl (fun m cmd =>
            let b := getA (getA weekly week []) cmd ⟨0, 0, 0, 0⟩
            updA m cmd ⟨[], [], [], []⟩ (fun s =>
              { winrate := s.winrate ++ [if 0 < b.t
                  then some (pyRound (((b.w : ℚ) / (b.t : ℚ)) * 100) 1) else none]
                games := s.games ++ [b.t]
                winrate_no_mirror := s.winrate_no_mirror ++ [if 0 < b.t_nm
                  then some (pyRound (((b.w_nm : ℚ) / (b.t_nm : ℚ)) * 100) 1) else none]
                games_no_mirror := s.games_no_mirror ++ [b.t_nm] })) acc.2))
    (([], commanders0) : List String × Assoc String WTSeries)
  ⟨fin.1, fin.2⟩

/-- One wins/total bucket of the winrate-by-bucket aggregators. -/
structure WB where
  wins : ℕ
  total : ℕ
deriving DecidableEq

/-- Increment bucket `b` of a bucket list: total always, wins when the
player won (the `stats[cmd][bucket]` update of the source). -/
def bumpWB : List WB → ℕ → Bool → List WB
  | [], _, _ => []
  | x :: xs, 0, won => { wins := if won then x.wins + 1 else x.wins, total := x.total + 1 } :: xs
  | x :: xs, b + 1, won => x :: bumpWB xs b won

/-- One output bucket of the winrate-by-bucket aggregators. -/
structure WROut where
  winrate : Option ℚ
  games : ℕ
deriving DecidableEq

/-- Output of the winrate-by-bucket aggregators. -/
structure BucketResult where
  buckets : List String
  commanders : Assoc String (List WROut)
deriving DecidableEq

/-- Build the output bucket list from the internal tallies: winrate is
`round(wins/total, 4)` and `none` for an empty bucket. -/
def mkWROut (l : List WB) : List WROut :=
  l.map (fun b =>
    ⟨if 0 < b.total then some (pyRound ((b.wins : ℚ) / (b.total : ℚ)) 4) else none, b.total⟩)

/-- `get_bucket` of `aggregate_duration_winrates`. -/
def durBucket (mins : ℚ) : ℕ :=
  if mins < 10 then 0 else if mins < 20 then 1 else if mins < 30 then 2 else 3

/-- The duration bucket labels. -/
def DUR_BUCKETS : List String := ["0-10", "10-20", "20-30", "30+"]

/-- One game's contribution to the duration-bucket tallies: games with no
duration are skipped; every named commander appearance lands in the
game's duration bucket. -/
def durGameStep (m : Assoc String (List WB)) (g : Game) : Assoc String (List WB) :=
  match g.duration_minutes with
  | none => m
  | some dur =>
    g.players.foldl (fun m p =>
      if p.commander = "" then m
      else updA m p.commander (List.replicate 4 ⟨0, 0⟩)
        (fun l => bumpWB l (durBucket dur) p.winner)) m

/-- `aggregate_duration_winrates`: per-commander winrate bucketed by game
duration. -/
def aggregate_duration_winrates (games : List Game) : BucketResult :=
  ⟨DUR_BUCKETS, (games.foldl durGameStep []).map (fun e => (e.1, mkWROut e.2))⟩

/-- `get_bucket` of `aggregate_action_winrates`. -/
def actBucket (actions : ℤ) : ℕ :=
  if actions < 30 then 0 else if actions < 60 then 1 else if actions < 90 then 2
  else if actions < 120 then 3 else 4

/-- The action bucket labels. -/
def ACT_BUCKETS : List String := ["0-30", "30-60", "60-90", "90-120", "120+"]

/-- One game's contribution to the action-bucket tallies: named commander
appearances with a truthy (non-zero) action count. -/
def actGameStep (m : Assoc String (List WB)) (g : Game) : Assoc String (List WB) :=
  g.players.foldl (fun m p =>
    if p.commander = "" then m
    else if p.actions = 0 then m
    else updA m p.commander (List.replicate 5 ⟨0, 0⟩)
      (fun l => bumpWB l (actBucket p.actions) p.winner)) m

/-- `aggregate_action_winrates`: per-commander winrate bucketed by player
action count. -/
def aggregate_action_winrates (games : List Game) : BucketResult :=
  ⟨ACT_BUCKETS, (games.foldl actGameStep []).map (fun e => (e.1, mkWROut e.2))⟩

/-- `get_bucket` of `aggregate_turn_winrates`. -/
def turnBucket (turns : ℤ) : ℕ :=
  if turns < 5 then 0 else if turns < 8 then 1 else if turns < 11 then 2
  else if turns < 14 then 3 else 4

/-- The turn bucket labels. -/
def TURN_BUCKETS : List String := ["1-5", "5-8", "8-11", "11-14", "14+"]

/-- One game's contribution to the turn-bucket tallies: named commander
appearances with a truthy (non-zero) turn count. -/
def turnGameStep (m : Assoc String (List WB)) (g : Game) : Assoc String (List WB) :=
  g.players.foldl (fun m p =>
    if p.commander = "" then m
    else if p.turns = 0 then m
    else updA m p.commander (List.replicate 5 ⟨0, 0⟩)
      (fun l => bumpWB l (turnBucket p.turns) p.winner)) m

/-- `aggregate_turn_winrates`: per-commander winrate bucketed by player
turn count. -/
def aggregate_turn_winrates (games : List Game) : BucketResult :=
  ⟨TURN_BUCKETS, (games.foldl turnGameStep []).map (fun e => (e.1, mkWROut e.2))⟩

/-- Apply `f` to the element at index `i` of a list (a Python
`l[i] = f(l[i])` on an index known to be in range). -/
def incListAt {α : Type} : List α → ℕ → (α → α) → List α
  | [], _, _ => []
  | x :: xs, 0, f => f x :: xs
  | x :: xs, i + 1, f => x :: incListAt xs i f

/-- Per-commander per-card tallies of `aggregate_commander_card_stats`. -/
structure CCSData where
  deck : ℕ
  deck_wins : ℕ
  drawn : ℕ
  drawn_wins : ℕ
  played : ℕ
  played_wins : ℕ
  total_copies : ℤ
  drawn_instances : ℤ
  played_instances : ℤ
deriving DecidableEq

/-- One output card record of `aggregate_commander_card_stats`. -/
structure CCSCard where
  name : String
  inclusion_rate : ℚ
  drawn_rate : ℚ
  drawn_winrate : Option ℚ
  played_rate : ℚ
  played_winrate : Option ℚ
  drawn_count : ℕ
  played_count : ℕ
  drawn_instances : ℤ
  played_instances : ℤ
  avg_copies : ℚ
  deck_count : ℕ
  games : ℕ
deriving DecidableEq

/-- One player-appearance's contribution to the per-commander per-card
map of `aggregate_commander_card_stats`. -/
def ccsStep (m : Assoc String (Assoc String CCSData)) (p : Player) :
    Assoc String (Assoc String CCSData) :=
  let cmd := p.commander
  let won := p.winner
  let zero : CCSData := ⟨0, 0, 0, 0, 0, 0, 0, 0, 0⟩
  let m := p.cards_in_deck.foldl (fun m c =>
    updA m cmd [] (fun inner => updA inner c.name zero (fun d =>
      { d with deck := d.deck + 1
               total_copies := d.total_copies + c.count
               deck_wins := if won then d.deck_wins + 1 else d.deck_wins }))) m
  let m := p.cards_drawn.foldl (fun m c =>
    updA m cmd [] (fun inner => updA inner c.name zero (fun d =>
      { d with drawn := d.drawn + 1
               drawn_instances := d.drawn_instances + c.count
               drawn_wins := if won then d.drawn_wins + 1 else d.drawn_wins }))) m
  p.cards_played.foldl (fun m c =>
    updA m cmd [] (fun inner => updA inner c.name zero (fun d =>
      { d with played := d.played + 1
               played_instances := d.played_instances + c.count
               played_wins := if won then d.played_wins + 1 else d.played_wins }))) m

/-- `aggregate_commander_card_stats`: per commander, per-card usage rates
relative to that commander's appearance count, sorted by descending
inclusion rate; the empty collection returns the empty dict early. -/
def aggregate_commander_card_stats (games : List Game) : Assoc String (List CCSCard) :=
  if games = [] then []
  else
    let acc := games.foldl (fun acc g =>
      g.players.foldl (fun (acc : Assoc String (Assoc String CCSData) × Assoc String ℕ) p =>
        if p.commander = "" then acc
        else (ccsStep acc.1 p, updA acc.2 p.commander 0 (· + 1))) acc) ([], [])
    let stats := acc.1
    let cmd_games := acc.2
    stats.filterMap (fun e =>
      let total := getA cmd_games e.1 0
      if total = 0 then none
      else
        let card_list : List CCSCard := e.2.map (fun ce =>
          let d := ce.2
          { name := ce.1
            inclusion_rate := pyRound ((d.deck : ℚ) / (total : ℚ)) 4
            drawn_rate := pyRound ((d.drawn : ℚ) / (total : ℚ)) 4
            drawn_winrate := if 0 < d.drawn
              then some (pyRound ((d.drawn_wins : ℚ) / (d.drawn : ℚ)) 4) else none
            played_rate := pyRound ((d.played : ℚ) / (total : ℚ)) 4
            played_winrate := if 0 < d.played
              then some (pyRound ((d.played_wins : ℚ) / (d.played : ℚ)) 4) else none
            drawn_count := d.drawn
            played_count := d.played
            drawn_instances := d.drawn_instances
            played_instances := d.played_instances
            avg_copies := if 0 < d.deck
              then pyRound ((d.total_copies : ℚ) / (d.deck : ℚ)) 2 else 0
            deck_count := d.deck
            games := total })
        some (e.1, insertionSortBy
          (fun a b => decide (b.inclusion_rate ≤ a.inclusion_rate)) card_list))

/-- One histogram of `aggregate_game_distributions`. -/
structure DistSeries where
  labels : List String
  counts : List ℕ
  total : ℕ
deriving DecidableEq

/-- Output of `aggregate_game_distributions`. -/
structure Distributions where
  duration : DistSeries
  turns : DistSeries
  actions : DistSeries
deriving DecidableEq

/-- Fixed-width bucket labels `start-start+w` (the `f"{i}-{i+w}"` label
lists of the source). -/
def distLabels (w count : ℕ) : List String :=
  (List.range' 0 count w).map (fun i => toString i ++ "-" ++ toString (i + w))

/-- Histogram index of an integer quantity: floor-divide by the width and
clamp into the label range (Python list indexing wraps one level of
negative index; larger underflows cannot occur for the widths used). -/
def distIndexZ (v : ℤ) (w : ℕ) (nLabels : ℕ) : ℕ :=
  let idx : ℤ := min (Int.fdiv v (w : ℤ)) ((nLabels : ℤ) - 1)
  (if idx < 0 then (nLabels : ℤ) + idx else idx).toNat

/-- `aggregate_game_distributions`: pre-bucketed histograms of game
duration, total turns and total actions, with overflow clamped into the
last bucket. -/
def aggregate_game_distributions (games : List Game) : Distributions :=
  let dur_labels := distLabels 2 25
  let trn_labels := distLabels 2 21
  let act_labels := distLabels 20 12
  let fin := games.foldl (fun (acc : (List ℕ × ℕ) × (List ℕ × ℕ) × (List ℕ × ℕ)) g =>
    let dacc := match g.duration_minutes with
      | some dur =>
        if 0 ≤ dur then
          (incListAt acc.1.1 (min (Int.toNat ⌊dur / 2⌋) 24) (· + 1), acc.1.2 + 1)
        else acc.1
      | none => acc.1
    let total_turns : ℤ := (g.players.map (·.turns)).sum
    let tacc := (incListAt acc.2.1.1 (distIndexZ total_turns 2 21) (· + 1), acc.2.1.2 + 1)
    let total_actions : ℤ := (g.players.map (·.actions)).sum
    let aacc := (incListAt acc.2.2.1 (distIndexZ total_actions 20 12) (· + 1), acc.2.2.2 + 1)
    (dacc, tacc, aacc))
    ((List.replicate 25 0, 0), (List.replicate 21 0, 0), (List.replicate 12 0, 0))
  ⟨⟨dur_labels, fin.1.1, fin.1.2⟩,
   ⟨trn_labels, fin.2.1.1, fin.2.1.2⟩,
   ⟨act_labels, fin.2.2.1, fin.2.2.2⟩⟩

/-- A reference-data card entry (`card_info` lookup values; absent cards
fall back to no cost, empty type, neutral faction). -/
structure CardInfo where
  cost : Option ℕ
  ctype : String
  faction : String
deriving DecidableEq

/-- Per-deck statistics of `aggregate_deck_composition`. -/
structure DeckStats where
  avg_cost : ℚ
  cost_curve : List ℤ
  minion_count : ℤ
  spell_count : ℤ
  patron_count : ℤ
  neutral_count : ℤ
  other_count : ℤ
deriving DecidableEq

/-- The running accumulator of the per-deck card loop. -/
structure DeckAcc where
  total_cost_weighted : ℤ
  total_card_count : ℤ
  cost_curve : List ℤ
  minion_count : ℤ
  spell_count : ℤ
  patron_count : ℤ
  neutral_count : ℤ
  other_count : ℤ
deriving DecidableEq

/-- Compute one deck's statistics: weighted average cost, cost curve with
a 12+ overflow bucket, minion/spell counts, and same-faction (patron) /
neutral / off-faction copy counts. -/
def deckStatsOf (card_info : Assoc String CardInfo) (commander_faction : String)
    (cards : List CardEntry) : DeckStats :=
  let a := cards.foldl (fun (a : DeckAcc) card =>
    let info := (lookA card_info card.name).getD ⟨none, "", "neutral"⟩
    let a := match info.cost with
      | some cost =>
        { a with total_cost_weighted := a.total_cost_weighted + (cost : ℤ) * card.count
                 cost_curve := incListAt a.cost_curve (min cost 12) (· + card.count) }
      | none => a
    let a := { a with total_card_count := a.total_card_count + card.count }
    let a := if info.ctype = "Minion" then { a with minion_count := a.minion_count + card.count }
             else if info.ctype = "Spell" then { a with spell_count := a.spell_count + card.count }
             else a
    if info.faction = commander_faction then { a with patron_count := a.patron_count + card.count }
    else if info.faction = "neutral" then { a with neutral_count := a.neutral_count + card.count }
    else { a with other_count := a.other_count + card.count })
    ⟨0, 0, List.replicate 13 0, 0, 0, 0, 0, 0⟩
  { avg_cost := if 0 < a.total_card_count
      then (a.total_cost_weighted : ℚ) / (a.total_card_count : ℚ) else 0
    cost_curve := a.cost_curve
    minion_count := a.minion_count
    spell_count := a.spell_count
    patron_count := a.patron_count
    neutral_count := a.neutral_count
    other_count := a.other_count }

/-- Per-commander accumulation of `aggregate_deck_composition`: the
commander's faction and its decks, split into all/winning/losing. -/
structure CmdDecks where
  faction : String
  all : List DeckStats
  win : List DeckStats
  loss : List DeckStats
deriving DecidableEq

/-- `avg_field` of the source: 0 on no decks, else the 2-digit rounded
mean of the selected field. -/
def avg_field (decks : List DeckStats) (f : DeckStats → ℚ) : ℚ :=
  if decks = [] then 0
  else pyRound ((decks.map f).sum / (decks.length : ℚ)) 2

/-- `avg_curve` of the source: the element-wise 2-digit rounded mean of
the cost curves, all-zero on no decks. -/
def avg_curve (decks : List DeckStats) : List ℚ :=
  if decks = [] then List.replicate 13 0
  else (List.range 13).map (fun i =>
    pyRound ((((decks.map (fun d => d.cost_curve.getD i 0)).sum : ℤ) : ℚ) / (decks.length : ℚ)) 2)

/-- One output record of `aggregate_deck_composition`. -/
structure DeckCompOut where
  faction : String
  deck_count : ℕ
  avg_cost : ℚ
  cost_histogram_labels : List String
  cost_histogram_all : List ℚ
  cost_histogram_win : List ℚ
  cost_histogram_loss : List ℚ
  avg_minion_count : ℚ
  avg_spell_count : ℚ
  avg_patron_cards : ℚ
  avg_neutral_cards : ℚ
  avg_other_cards : ℚ
  win_avg_minion_count : ℚ
  win_avg_spell_count : ℚ
  loss_avg_minion_count : ℚ
  loss_avg_spell_count : ℚ
deriving DecidableEq

/-- `aggregate_deck_composition`: per-commander averaged deck composition
with win/loss splits. -/
def aggregate_deck_composition (games : List Game) (card_info : Assoc String CardInfo)
    (cmd_faction : Assoc String String) : Assoc String DeckCompOut :=
  let cmd_data : Assoc String CmdDecks := games.foldl (fun m g =>
    g.players.foldl (fun m p =>
      if p.commander = "" then m
      else
        let commander_faction := getA cmd_faction p.commander "neutral"
        let ds := deckStatsOf card_info commander_faction p.cards_in_deck
        updA m p.commander ⟨"", [], [], []⟩ (fun e =>
          { faction := commander_faction
            all := e.all ++ [ds]
            win := if p.winner then e.win ++ [ds] else e.win
            loss := if p.winner then e.loss else e.loss ++ [ds] })) m) []
  cmd_data.map (fun e =>
    (e.1,
     { faction := e.2.faction
       deck_count := e.2.all.length
       avg_cost := avg_field e.2.all (·.avg_cost)
       cost_histogram_labels := (List.range 12).map toString ++ ["12+"]
       cost_histogram_all := avg_curve e.2.all
       cost_histogram_win := avg_curve e.2.win
       cost_histogram_loss := avg_curve e.2.loss
       avg_minion_count := avg_field e.2.all (fun d => (d.minion_count : ℚ))
       avg_spell_count := avg_field e.2.all (fun d => (d.spell_count : ℚ))
       avg_patron_cards := avg_field e.2.all (fun d => (d.patron_count : ℚ))
       avg_neutral_cards := avg_field e.2.all (fun d => (d.neutral_count : ℚ))
       avg_other_cards := avg_field e.2.all (fun d => (d.other_count : ℚ))
       win_avg_minion_count := avg_field e.2.win (fun d => (d.minion_count : ℚ))
       win_avg_spell_count := avg_field e.2.win (fun d => (d.spell_count : ℚ))
       loss_avg_minion_count := avg_field e.2.loss (fun d => (d.minion_count : ℚ))
       loss_avg_spell_count := avg_field e.2.loss (fun d => (d.spell_count : ℚ)) }))

/-- Number of entries named `nm` in a card list (one source-loop increment
per entry). -/
def countNameIn (nm : String) (cs : List CardEntry) : ℕ :=
  cs.countP (fun c => c.name == nm)

/-- Number of player-appearances whose selected card list contains the
card `nm`. -/
def appearCount (games : List Game) (sel : Player → List CardEntry) (nm : String) : ℕ :=
  (games.map (fun g => g.players.countP (fun p => (sel p).any (fun c => c.name == nm)))).sum

/-- `first_games + second_games` of a commander in a first-turn result
(0 when the commander is absent). -/
def ft_fgsg (r : FTResult) (cmd : String) : ℕ :=
  match lookA r.per_commander cmd with
  | some e => e.first_games + e.second_games
  | none => 0

/-- Player-appearances of a commander among first-turn-eligible games
with exactly two players. -/
def eligAppearances (games : List Game) (cmd : String) : ℕ :=
  ((games.filter (fun g => eligibleFP g && g.players.length == 2)).map
    (fun g => g.players.countP (fun p => p.commander == cmd))).sum

/-- Number of first-turn-eligible games in which a commander appears (the
reading of the claim that fails on the code). -/
def ftGamesAppeared (games : List Game) (cmd : String) : ℕ :=
  (games.filter (fun g => eligibleFP g)).countP
    (fun g => g.players.any (fun p => p.commander == cmd))

/-- Sum of the `games` fields across a commander's output buckets (0 when
the commander is absent from the output). -/
def bucketGamesSum (r : BucketResult) (cmd : String) : ℕ :=
  match lookA r.commanders cmd with
  | some l => (l.map (·.games)).sum
  | none => 0

/-- Qualifying duration appearances: the game carries a duration and the
player names this commander. -/
def durQual (games : List Game) (cmd : String) : ℕ :=
  (games.map (fun g =>
    match g.duration_minutes with
    | some _ => g.players.countP (fun p => p.commander == cmd)
    | none => 0)).sum

/-- Qualifying action appearances: the player names this commander and
has a truthy (non-zero) action count. -/
def actQual (games : List Game) (cmd : String) : ℕ :=
  (games.map (fun g =>
    g.players.countP (fun p => p.commander == cmd && !(p.actions == 0)))).sum

/-- Qualifying turn appearances: the player names this commander and has
a truthy (non-zero) turn count. -/
def turnQual (games : List Game) (cmd : String) : ℕ :=
  (games.map (fun g =>
    g.players.countP (fun p => p.commander == cmd && !(p.turns == 0)))).sum

/-- The interval semantics of the duration bucket labels
`0-10 / 10-20 / 20-30 / 30+`. -/
def durInterval (i : ℕ) (x : ℚ) : Prop :=
  match i with
  | 0 => x < 10
  | 1 => 10 ≤ x ∧ x < 20
  | 2 => 20 ≤ x ∧ x < 30
  | 3 => 30 ≤ x
  | _ + 4 => False

/-- The interval semantics of the action bucket labels
`0-30 / 30-60 / 60-90 / 90-120 / 120+`. -/
def actInterval (i : ℕ) (x : ℤ) : Prop :=
  match i with
  | 0 => x < 30
  | 1 => 30 ≤ x ∧ x < 60
  | 2 => 60 ≤ x ∧ x < 90
  | 3 => 90 ≤ x ∧ x < 120
  | 4 => 120 ≤ x
  | _ + 5 => False

/-- The interval semantics of the turn bucket labels
`1-5 / 5-8 / 8-11 / 11-14 / 14+`. -/
def turnInterval (i : ℕ) (x : ℤ) : Prop :=
  match i with
  | 0 => x < 5
  | 1 => 5 ≤ x ∧ x < 8
  | 2 => 8 ≤ x ∧ x < 11
  | 3 => 11 ≤ x ∧ x < 14
  | 4 => 14 ≤ x
  | _ + 5 => False

/-- Length of a commander's series in a popularity-trend result; for an
absent commander the dates length itself, so that equality with the
dates length states exactly "every present series has the dates
length". -/
def ctSeriesLen (r : CTrends) (c : String) : ℕ :=
  match lookA r.commanders c with
  | some l => l.length
  | none => r.dates.length

/-- All four series of a commander in a winrate-trend result have the
dates length (trivially true for an absent commander). -/
def wtLensOk (r : WTrends) (c : String) : Prop :=
  match lookA r.commanders c with
  | some s => s.winrate.length = r.dates.length ∧ s.games.length = r.dates.length
      ∧ s.winrate_no_mirror.length = r.dates.length
      ∧ s.games_no_mirror.length = r.dates.length
  | none => True

/-- C5: in cleaning, a string-valued winner field coerces to `true`
exactly when it equals `"true"` case-insensitively; any other string,
`"1"` included, coerces to `false`; a native boolean passes through
unchanged. -/
theorem winner_string_coercion (s : String) (b : Bool) :
    (coerce_winner (.pStr s) = true ↔ pyLower s = pyLower "true")
  ∧ coerce_winner (.pStr "1") = false
  ∧ coerce_winner (.pBool b) = b := by
  have htrue : pyLower "true" = "true" := by decide
  refine ⟨?_, by decide, rfl⟩
  rw [htrue]
  simp [coerce_winner]

/-- C7: `clean_game` rejects (returns no game for) every raw record whose
`firstPlayer`, coerced to string with absent defaulting to `"0"`, is
`"0"`. -/
theorem first_player_zero_rejected (mt : ℤ) (raw : RawRecord)
    (h : pyStr (raw.firstPlayer.getD (.pStr "0")) = "0") :
    clean_game mt raw = none := by
  unfold clean_game
  simp [h]

/-- Witness for `first_player_zero_rejected`: the scenario record with
integer `firstPlayer = 0` is rejected. -/
theorem first_player_zero_rejected_witness :
    pyStr ((some (PyVal.pInt 0)).getD (.pStr "0")) = "0"
  ∧ clean_game 2 ⟨"g1", some (.pInt 0), "", "", none, "", ""⟩ = none :=
  ⟨by decide, first_player_zero_rejected 2 ⟨"g1", some (.pInt 0), "", "", none, "", ""⟩ (by decide)⟩

/-- C9: `aggregate_card_stats` returns the empty list exactly on the
empty collection, and otherwise the tuple of the per-card map and
`total_player_games = 2 * len(games)`. -/
theorem card_stats_return_shape (games : List Game) (h : games ≠ []) :
    aggregate_card_stats games = .tuple (card_data_fold games) (2 * games.length)
  ∧ aggregate_card_stats [] = .emptyList := by
  refine ⟨?_, rfl⟩
  unfold aggregate_card_stats
  simp [List.length_eq_zero, h, Nat.mul_comm]

/-- A minimal concrete cleaned game used by the `card_stats_return_shape`
witness. -/
def gC9 : Game :=
  { game_id := "w9", datetime := none, datetime_started := none, duration_minutes := none,
    map := "", format := "", first_player := "1",
    players := [{ name := "a", winner := true, commander := "A", deck_name := "", turns := 3,
                  actions := 1, cards_in_deck := [⟨"X", 1⟩], cards_drawn := [⟨"X", 1⟩],
                  cards_played := [⟨"X", 1⟩] }] }

/-- Witness for `card_stats_return_shape` at a one-game collection. -/
theorem card_stats_return_shape_witness :
    ([gC9] ≠ ([] : List Game))
  ∧ (aggregate_card_stats [gC9] = .tuple (card_data_fold [gC9]) (2 * [gC9].length)
     ∧ aggregate_card_stats [] = .emptyList) :=
  ⟨by decide, card_stats_return_shape [gC9] (by decide)⟩

/-- C8: every aggregator of the family, invoked on the empty game
collection, returns its structurally valid empty/zeroed result.  In this
embedding every aggregator is a total function, so no invocation can
raise; these equations pin down the empty-input values. -/
theorem aggregators_empty_input_ok :
    aggregate_commander_stats [] = []
  ∧ aggregate_matchups [] = []
  ∧ aggregate_matchup_details [] = []
  ∧ aggregate_card_stats [] = .emptyList
  ∧ aggregate_trends [] = ([], [])
  ∧ aggregate_first_turn [] = ⟨0, 0, none, []⟩
  ∧ aggregate_commander_trends [] = ⟨[], []⟩
  ∧ aggregate_commander_winrate_trends [] = ⟨[], []⟩
  ∧ aggregate_duration_winrates [] = ⟨DUR_BUCKETS, []⟩
  ∧ aggregate_action_winrates [] = ⟨ACT_BUCKETS, []⟩
  ∧ aggregate_turn_winrates [] = ⟨TURN_BUCKETS, []⟩
  ∧ aggregate_commander_card_stats [] = []
  ∧ aggregate_game_distributions []
      = ⟨⟨distLabels 2 25, List.replicate 25 0, 0⟩,
         ⟨distLabels 2 21, List.replicate 21 0, 0⟩,
         ⟨distLabels 20 12, List.replicate 12 0, 0⟩⟩
  ∧ ∀ (card_info : Assoc String CardInfo) (cmd_faction : Assoc String String),
      aggregate_deck_composition [] card_info cmd_faction = [] :=
  ⟨rfl, rfl, rfl, rfl, rfl, rfl, rfl, rfl, rfl, rfl, rfl, rfl, rfl, fun _ _ => rfl⟩

/-- Reading any cell after a nested `defaultdict` update. -/
theorem getCell_upd2 (m : Matchups) (a b x y : String) (f : MCell → MCell) :
    getCell (upd2 m a b f) x y
      = if a = x ∧ b = y then f (getCell m x y) else getCell m x y := by
  unfold getCell upd2
  by_cases hx : a = x
  · subst hx
    by_cases hy : b = y
    · subst hy
      rw [getA_updA, if_pos rfl, getA_updA, if_pos rfl, if_pos ⟨rfl, rfl⟩]
    · rw [getA_updA, if_pos rfl, getA_updA, if_neg hy, if_neg (fun hc => hy hc.2)]
  · rw [getA_updA, if_neg hx, if_neg (fun hc => hx hc.1)]

/-- The wins field after recording one decided game in both directions. -/
theorem pair_cell_wins (m : Matchups) (c1 c2 a b : String) :
    (getCell (upd2 (upd2 m c1 c2 (fun c => { c with wins := c.wins + 1 }))
        c2 c1 (fun c => { c with losses := c.losses + 1 })) a b).wins
      = (getCell m a b).wins + (if c1 = a ∧ c2 = b then 1 else 0) := by
  rw [getCell_upd2, getCell_upd2]
  split_ifs with h1 h2 h3 <;> simp

/-- The losses field after recording one decided game in both
directions. -/
theorem pair_cell_losses (m : Matchups) (c1 c2 a b : String) :
    (getCell (upd2 (upd2 m c1 c2 (fun c => { c with wins := c.wins + 1 }))
        c2 c1 (fun c => { c with losses := c.losses + 1 })) a b).losses
      = (getCell m a b).losses + (if c2 = a ∧ c1 = b then 1 else 0) := by
  rw [getCell_upd2, getCell_upd2]
  split_ifs with h1 h2 h3 <;> simp

/-- The mirrored-losses invariant of the matchup matrix. -/
def matchupInv (m : Matchups) : Prop :=
  ∀ a b, (getCell m a b).wins = (getCell m b a).losses

theorem matchupInv_upd_pair (m : Matchups) (c1 c2 : String) (h : matchupInv m) :
    matchupInv (upd2 (upd2 m c1 c2 (fun c => { c with wins := c.wins + 1 }))
      c2 c1 (fun c => { c with losses := c.losses + 1 })) := by
  intro a b
  rw [pair_cell_wins, pair_cell_losses, h a b]
  congr 1
  exact if_congr and_comm rfl rfl

theorem matchupInv_step (m : Matchups) (g : Game) (h : matchupInv m) :
    matchupInv (matchupStep m g) := by
  rcases hp : g.players with _ | ⟨p1, tl⟩
  · simpa [matchupStep, hp] using h
  rcases tl with _ | ⟨p2, tl2⟩
  · simpa [matchupStep, hp] using h
  rcases tl2 with _ | ⟨p3, tl3⟩
  · simp only [matchupStep, hp]
    by_cases hc : p1.commander = "" ∨ p2.commander = ""
    · simpa [hc] using h
    · by_cases h1 : p1.winner
      · simpa [hc, h1] using matchupInv_upd_pair m p1.commander p2.commander h
      · by_cases h2 : p2.winner
        · simpa [hc, h1, h2] using matchupInv_upd_pair m p2.commander p1.commander h
        · simpa [hc, h1, h2] using h
  · simpa [matchupStep, hp] using h

/-- C1: in the matrix of `aggregate_matchups`, for every ordered pair of
commanders the directed wins equal the opposite directed losses, and the
derived totals (`wins + losses`, as `build_and_write_all` computes them)
agree in both directions. -/
theorem matchup_matrix_symmetric (games : List Game) (A B : String) :
    (getCell (aggregate_matchups games) A B).wins
      = (getCell (aggregate_matchups games) B A).losses
  ∧ (getCell (aggregate_matchups games) A B).wins
      + (getCell (aggregate_matchups games) A B).losses
    = (getCell (aggregate_matchups games) B A).wins
      + (getCell (aggregate_matchups games) B A).losses := by
  have H : matchupInv (aggregate_matchups games) := by
    unfold aggregate_matchups
    have step : ∀ (gs : List Game) (m : Matchups),
        matchupInv m → matchupInv (gs.foldl matchupStep m) := by
      intro gs
      induction gs with
      | nil => intro m hm; exact hm
      | cons g gs ih => intro m hm; exact ih _ (matchupInv_step m g hm)
    exact step games [] (fun a b => rfl)
  refine ⟨H A B, ?_⟩
  rw [H A B, H B A]
  exact Nat.add_comm _ _

/-- One deck-list entry's update in `aggregate_card_stats` (named form of
the first inner loop of `card_data_step`). -/
def deckCardStep (won : Bool) (m : Assoc String CardData) (c : CardEntry) :
    Assoc String CardData :=
  updA m c.name cdDefault (fun d =>
    { d with deck_count := d.deck_count + 1
             total_copies := d.total_copies + c.count
             deck_wins := if won then d.deck_wins + 1 else d.deck_wins })

/-- One drawn-list entry's update in `aggregate_card_stats`. -/
def drawnCardStep (won : Bool) (m : Assoc String CardData) (c : CardEntry) :
    Assoc String CardData :=
  updA m c.name cdDefault (fun d =>
    { d with drawn_count := d.drawn_count + 1
             drawn_instances := d.drawn_instances + c.count
             drawn_wins := if won then d.drawn_wins + 1 else d.drawn_wins })

/-- One played-list entry's update in `aggregate_card_stats`. -/
def playedCardStep (won : Bool) (m : Assoc String CardData) (c : CardEntry) :
    Assoc String CardData :=
  updA m c.name cdDefault (fun d =>
    { d with played_count := d.played_count + 1
             played_instances := d.played_instances + c.count
             played_wins := if won then d.played_wins + 1 else d.played_wins })

theorem card_data_step_as_folds (m : Assoc String CardData) (p : Player) :
    card_data_step m p
      = p.cards_played.foldl (playedCardStep p.winner)
          (p.cards_drawn.foldl (drawnCardStep p.winner)
            (p.cards_in_deck.foldl (deckCardStep p.winner) m)) := rfl

theorem deckFold_counts (won : Bool) (cs : List CardEntry) (m : Assoc String CardData) (n : String) :
    (getA (cs.foldl (deckCardStep won) m) n cdDefault).deck_count
        = (getA m n cdDefault).deck_count + countNameIn n cs
  ∧ (getA (cs.foldl (deckCardStep won) m) n cdDefault).drawn_count
        = (getA m n cdDefault).drawn_count
  ∧ (getA (cs.foldl (deckCardStep won) m) n cdDefault).played_count
        = (getA m n cdDefault).played_count := by
  induction cs generalizing m with
  | nil => simp [countNameIn]
  | cons c cs ih =>
    obtain ⟨ih1, ih2, ih3⟩ := ih (deckCardStep won m c)
    simp only [List.foldl_cons]
    have hupd : getA (deckCardStep won m c) n cdDefault
        = if c.name = n
          then (fun d => { d with deck_count := d.deck_count + 1
                                  total_copies := d.total_copies + c.count
                                  deck_wins := if won then d.deck_wins + 1 else d.deck_wins })
            (getA m c.name cdDefault)
          else getA m n cdDefault := by
      unfold deckCardStep; rw [getA_updA]
    refine ⟨?_, ?_, ?_⟩
    · rw [ih1, hupd]
      by_cases h : c.name = n
      · subst h
        simp [countNameIn, List.countP_cons]
        omega
      · simp [h, countNameIn, List.countP_cons]
    · rw [ih2, hupd]
      by_cases h : c.name = n
      · subst h; simp
      · simp [h]
    · rw [ih3, hupd]
      by_cases h : c.name = n
      · subst h; simp
      · simp [h]

theorem drawnFold_counts (won : Bool) (cs : List CardEntry) (m : Assoc String CardData) (n : String) :
    (getA (cs.foldl (drawnCardStep won) m) n cdDefault).drawn_count
        = (getA m n cdDefault).drawn_count + countNameIn n cs
  ∧ (getA (cs.foldl (drawnCardStep won) m) n cdDefault).deck_count
        = (getA m n cdDefault).deck_count
  ∧ (getA (cs.foldl (drawnCardStep won) m) n cdDefault).played_count
        = (getA m n cdDefault).played_count := by
  induction cs generalizing m with
  | nil => simp [countNameIn]
  | cons c cs ih =>
    obtain ⟨ih1, ih2, ih3⟩ := ih (drawnCardStep won m c)
    simp only [List.foldl_cons]
    have hupd : getA (drawnCardStep won m c) n cdDefault
        = if c.name = n
          then (fun d => { d with drawn_count := d.drawn_count + 1
                                  drawn_instances := d.drawn_instances + c.count
                                  drawn_wins := if won then d.drawn_wins + 1 else d.drawn_wins })
            (getA m c.name cdDefault)
          else getA m n cdDefault := by
      unfold drawnCardStep; rw [getA_updA]
    refine ⟨?_, ?_, ?_⟩
    · rw [ih1, hupd]
      by_cases h : c.name = n
      · subst h
        simp [countNameIn, List.countP_cons]
        omega
      · simp [h, countNameIn, List.countP_cons]
    · rw [ih2, hupd]
      by_cases h : c.name = n
      · subst h; simp
      · simp [h]
    · rw [ih3, hupd]
      by_cases h : c.name = n
      · subst h; simp
      · simp [h]

theorem playedFold_counts (won : Bool) (cs : List CardEntry) (m : Assoc String CardData) (n : String) :
    (getA (cs.foldl (playedCardStep won) m) n cdDefault).played_count
        = (getA m n cdDefault).played_count + countNameIn n cs
  ∧ (getA (cs.foldl (playedCardStep won) m) n cdDefault).deck_count
        = (getA m n cdDefault).deck_count
  ∧ (getA (cs.foldl (playedCardStep won) m) n cdDefault).drawn_count
        = (getA m n cdDefault).drawn_count := by
  induction cs generalizing m with
  | nil => simp [countNameIn]
  | cons c cs ih =>
    obtain ⟨ih1, ih2, ih3⟩ := ih (playedCardStep won m c)
    simp only [List.foldl_cons]
    have hupd : getA (playedCardStep won m c) n cdDefault
        = if c.name = n
          then (fun d => { d with played_count := d.played_count + 1
                                  played_instances := d.played_instances + c.count
                                  played_wins := if won then d.played_wins + 1 else d.played_wins })
            (getA m c.name cdDefault)
          else getA m n cdDefault := by
      unfold playedCardStep; rw [getA_updA]
    refine ⟨?_, ?_, ?_⟩
    · rw [ih1, hupd]
      by_cases h : c.name = n
      · subst h
        simp [countNameIn, List.countP_cons]
        omega
      · simp [h, countNameIn, List.countP_cons]
    · rw [ih2, hupd]
      by_cases h : c.name = n
      · subst h; simp
      · simp [h]
    · rw [ih3, hupd]
      by_cases h : c.name = n
      · subst h; simp
      · simp [h]

theorem card_data_step_counts (m : Assoc String CardData) (p : Player) (n : String) :
    (getA (card_data_step m p) n cdDefault).deck_count
        = (getA m n cdDefault).deck_count + countNameIn n p.cards_in_deck
  ∧ (getA (card_data_step m p) n cdDefault).drawn_count
        = (getA m n cdDefault).drawn_count + countNameIn n p.cards_drawn
  ∧ (getA (card_data_step m p) n cdDefault).played_count
        = (getA m n cdDefault).played_count + countNameIn n p.cards_played := by
  rw [card_data_step_as_folds]
  obtain ⟨d1, d2, d3⟩ := deckFold_counts p.winner p.cards_in_deck m n
  obtain ⟨r1, r2, r3⟩ := drawnFold_counts p.winner p.cards_drawn
    (p.cards_in_deck.foldl (deckCardStep p.winner) m) n
  obtain ⟨q1, q2, q3⟩ := playedFold_counts p.winner p.cards_played
    (p.cards_drawn.foldl (drawnCardStep p.winner)
      (p.cards_in_deck.foldl (deckCardStep p.winner) m)) n
  refine ⟨?_, ?_, ?_⟩
  · rw [q2, r2, d1]
  · rw [q3, r1, d2]
  · rw [q1, r3, d3]

/-- Total per-list entry count of a card over a collection. -/
def listTotal (games : List Game) (sel : Player → List CardEntry) (n : String) : ℕ :=
  (games.map (fun g => (g.players.map (fun p => countNameIn n (sel p))).sum)).sum

theorem playersFold_counts (ps : List Player) (m : Assoc String CardData) (n : String) :
    (getA (ps.foldl card_data_step m) n cdDefault).deck_count
        = (getA m n cdDefault).deck_count
          + (ps.map (fun p => countNameIn n p.cards_in_deck)).sum
  ∧ (getA (ps.foldl card_data_step m) n cdDefault).drawn_count
        = (getA m n cdDefault).drawn_count
          + (ps.map (fun p => countNameIn n p.cards_drawn)).sum
  ∧ (getA (ps.foldl card_data_step m) n cdDefault).played_count
        = (getA m n cdDefault).played_count
          + (ps.map (fun p => countNameIn n p.cards_played)).sum := by
  induction ps generalizing m with
  | nil => simp
  | cons p ps ih =>
    obtain ⟨ih1, ih2, ih3⟩ := ih (card_data_step m p)
    obtain ⟨s1, s2, s3⟩ := card_data_step_counts m p n
    simp only [List.foldl_cons, List.map_cons, List.sum_cons]
    exact ⟨by rw [ih1, s1]; omega, by rw [ih2, s2]; omega, by rw [ih3, s3]; omega⟩

theorem card_data_fold_counts (games : List Game) (n : String) :
    (getA (card_data_fold games) n cdDefault).deck_count
        = listTotal games (fun p => p.cards_in_deck) n
  ∧ (getA (card_data_fold games) n cdDefault).drawn_count
        = listTotal games (fun p => p.cards_drawn) n
  ∧ (getA (card_data_fold games) n cdDefault).played_count
        = listTotal games (fun p => p.cards_played) n := by
  have main : ∀ (gs : List Game) (m : Assoc String CardData),
      (getA (gs.foldl (fun m g => g.players.foldl card_data_step m) m) n cdDefault).deck_count
          = (getA m n cdDefault).deck_count + listTotal gs (fun p => p.cards_in_deck) n
    ∧ (getA (gs.foldl (fun m g => g.players.foldl card_data_step m) m) n cdDefault).drawn_count
          = (getA m n cdDefault).drawn_count + listTotal gs (fun p => p.cards_drawn) n
    ∧ (getA (gs.foldl (fun m g => g.players.foldl card_data_step m) m) n cdDefault).played_count
          = (getA m n cdDefault).played_count + listTotal gs (fun p => p.cards_played) n := by
    intro gs
    induction gs with
    | nil => intro m; simp [listTotal]
    | cons g gs ih =>
      intro m
      obtain ⟨ih1, ih2, ih3⟩ := ih (g.players.foldl card_data_step m)
      obtain ⟨s1, s2, s3⟩ := playersFold_counts g.players m n
      simp only [List.foldl_cons, listTotal, List.map_cons, List.sum_cons] at ih1 ih2 ih3 ⊢
      exact ⟨by rw [ih1, s1]; omega, by rw [ih2, s2]; omega, by rw [ih3, s3]; omega⟩
  obtain ⟨h1, h2, h3⟩ := main games []
  unfold card_data_fold
  refine ⟨by rw [h1]; simp [getA, lookA, cdDefault], by rw [h2]; simp [getA, lookA, cdDefault],
          by rw [h3]; simp [getA, lookA, cdDefault]⟩

theorem countNameIn_eq_count (n : String) (l : List CardEntry) :
    countNameIn n l = (l.map (fun c => c.name)).count n := by
  simp only [countNameIn, List.count, List.countP_map]
  rfl

theorem countP_eq_sum_ind {α : Type} (p : α → Bool) (l : List α) :
    l.countP p = (l.map (fun a => if p a then 1 else 0)).sum := by
  induction l with
  | nil => simp
  | cons a l ih =>
    rw [List.countP_cons]
    simp only [List.map_cons, List.sum_cons, ih]
    by_cases h : p a <;> simp [h] <;> omega

theorem countNameIn_le_of_subset (pl dr : List CardEntry)
    (hnd : (pl.map (fun c => c.name)).Nodup)
    (hsub : ∀ c ∈ pl, c.name ∈ dr.map (fun c => c.name)) (n : String) :
    countNameIn n pl ≤ countNameIn n dr := by
  rw [countNameIn_eq_count, countNameIn_eq_count]
  by_cases hm : n ∈ pl.map (fun c => c.name)
  · have h1 : (pl.map (fun c => c.name)).count n ≤ 1 :=
      List.nodup_iff_count_le_one.mp hnd n
    have h2 : n ∈ dr.map (fun c => c.name) := by
      obtain ⟨c, hc, hcn⟩ := List.mem_map.mp hm
      exact hcn ▸ hsub c hc
    have h3 : 1 ≤ (dr.map (fun c => c.name)).count n := List.count_pos_iff.mpr h2
    omega
  · rw [List.count_eq_zero_of_not_mem hm]
    exact Nat.zero_le _

theorem countNameIn_indicator (l : List CardEntry)
    (hnd : (l.map (fun c => c.name)).Nodup) (n : String) :
    countNameIn n l = if l.any (fun c => c.name == n) then 1 else 0 := by
  rw [countNameIn_eq_count]
  by_cases hm : n ∈ l.map (fun c => c.name)
  · have h1 : (l.map (fun c => c.name)).count n ≤ 1 :=
      List.nodup_iff_count_le_one.mp hnd n
    have h2 : 1 ≤ (l.map (fun c => c.name)).count n := List.count_pos_iff.mpr hm
    have hany : l.any (fun c => c.name == n) = true := by
      obtain ⟨c, hc, hcn⟩ := List.mem_map.mp hm
      exact List.any_eq_true.mpr ⟨c, hc, by simp [hcn]⟩
    rw [hany]
    simp only [if_true]
    omega
  · have hany : l.any (fun c => c.name == n) = false := by
      rw [List.any_eq_false]
      intro c hc h
      exact hm (List.mem_map.mpr ⟨c, hc, by simpa using h⟩)
    rw [List.count_eq_zero_of_not_mem hm, hany]
    rfl

/-- The per-player card-list sanity conditions of the data model: each
list names a card at most once, played names occur among drawn names, and
drawn names occur among deck names. -/
abbrev cardListsOk (games : List Game) : Prop :=
  ∀ g ∈ games, ∀ p ∈ g.players,
    ((p.cards_played.map (fun c => c.name)).Nodup
      ∧ (p.cards_drawn.map (fun c => c.name)).Nodup
      ∧ (p.cards_in_deck.map (fun c => c.name)).Nodup)
  ∧ (∀ c ∈ p.cards_played, c.name ∈ p.cards_drawn.map (fun c => c.name))
  ∧ (∀ c ∈ p.cards_drawn, c.name ∈ p.cards_in_deck.map (fun c => c.name))

theorem listTotal_mono (games : List Game) (sel1 sel2 : Player → List CardEntry) (n : String)
    (h : ∀ g ∈ games, ∀ p ∈ g.players, countNameIn n (sel1 p) ≤ countNameIn n (sel2 p)) :
    listTotal games sel1 n ≤ listTotal games sel2 n := by
  unfold listTotal
  apply List.sum_le_sum
  intro g hg
  apply List.sum_le_sum
  intro p hp
  exact h g hg p hp

theorem listTotal_eq_appear (games : List Game) (sel : Player → List CardEntry) (n : String)
    (h : ∀ g ∈ games, ∀ p ∈ g.players, ((sel p).map (fun c => c.name)).Nodup) :
    listTotal games sel n = appearCount games sel n := by
  unfold listTotal appearCount
  apply congrArg List.sum
  apply List.map_congr_left
  intro g hg
  rw [countP_eq_sum_ind]
  apply congrArg List.sum
  apply List.map_congr_left
  intro p hp
  exact countNameIn_indicator (sel p) (h g hg p hp) n

/-- C2 (amended): when every player-appearance's card lists are
duplicate-free and nested (played names among drawn names, drawn names
among deck names -- the data-model invariant of the spec, which the
cleaner does not itself enforce), the per-card data of
`aggregate_card_stats` satisfies `played_count ≤ drawn_count ≤
deck_count`, and each of the three counts equals the number of
player-appearances whose respective list contains the card (games, not
instances). -/
theorem card_count_ordering (games : List Game) (m : Assoc String CardData) (tpg : ℕ)
    (hres : aggregate_card_stats games = .tuple m tpg)
    (hg : cardListsOk games) (n : String) :
    ((getA m n cdDefault).played_count ≤ (getA m n cdDefault).drawn_count
      ∧ (getA m n cdDefault).drawn_count ≤ (getA m n cdDefault).deck_count)
  ∧ (getA m n cdDefault).played_count = appearCount games (fun p => p.cards_played) n
  ∧ (getA m n cdDefault).drawn_count = appearCount games (fun p => p.cards_drawn) n
  ∧ (getA m n cdDefault).deck_count = appearCount games (fun p => p.cards_in_deck) n := by
  have hm : m = card_data_fold games := by
    unfold aggregate_card_stats at hres
    by_cases h0 : games.length = 0
    · simp [h0] at hres
    · simp [h0] at hres
      exact hres.1.symm
  subst hm
  obtain ⟨hdeck, hdrawn, hplayed⟩ := card_data_fold_counts games n
  have hle1 : listTotal games (fun p => p.cards_played) n
      ≤ listTotal games (fun p => p.cards_drawn) n := by
    apply listTotal_mono
    intro g hgm p hp
    exact countNameIn_le_of_subset _ _ ((hg g hgm p hp).1.1 : _) (hg g hgm p hp).2.1 n
  have hle2 : listTotal games (fun p => p.cards_drawn) n
      ≤ listTotal games (fun p => p.cards_in_deck) n := by
    apply listTotal_mono
    intro g hgm p hp
    exact countNameIn_le_of_subset _ _ (hg g hgm p hp).1.2.1 (hg g hgm p hp).2.2 n
  refine ⟨⟨?_, ?_⟩, ?_, ?_, ?_⟩
  · rw [hplayed, hdrawn]; exact hle1
  · rw [hdrawn, hdeck]; exact hle2
  · rw [hplayed]
    exact listTotal_eq_appear games _ n (fun g hgm p hp => (hg g hgm p hp).1.1)
  · rw [hdrawn]
    exact listTotal_eq_appear games _ n (fun g hgm p hp => (hg g hgm p hp).1.2.1)
  · rw [hdeck]
    exact listTotal_eq_appear games _ n (fun g hgm p hp => (hg g hgm p hp).1.2.2)

/-- A well-formed concrete game for the `card_count_ordering` witness. -/
def gC2 : Game :=
  { game_id := "w2", datetime := none, datetime_started := none, duration_minutes := none,
    map := "", format := "", first_player := "1",
    players := [{ name := "a", winner := true, commander := "A", deck_name := "", turns := 3,
                  actions := 1, cards_in_deck := [⟨"X", 2⟩, ⟨"Y", 1⟩],
                  cards_drawn := [⟨"X", 1⟩], cards_played := [⟨"X", 1⟩] },
                { name := "b", winner := false, commander := "B", deck_name := "", turns := 3,
                  actions := 1, cards_in_deck := [⟨"Y", 1⟩], cards_drawn := [],
                  cards_played := [] }] }

/-- Witness for `card_count_ordering` at a concrete one-game collection
and the card `"X"`. -/
theorem card_count_ordering_witness :
    cardListsOk [gC2]
  ∧ (((getA (card_data_fold [gC2]) "X" cdDefault).played_count
        ≤ (getA (card_data_fold [gC2]) "X" cdDefault).drawn_count
      ∧ (getA (card_data_fold [gC2]) "X" cdDefault).drawn_count
        ≤ (getA (card_data_fold [gC2]) "X" cdDefault).deck_count)
    ∧ (getA (card_data_fold [gC2]) "X" cdDefault).played_count
        = appearCount [gC2] (fun p => p.cards_played) "X"
    ∧ (getA (card_data_fold [gC2]) "X" cdDefault).drawn_count
        = appearCount [gC2] (fun p => p.cards_drawn) "X"
    ∧ (getA (card_data_fold [gC2]) "X" cdDefault).deck_count
        = appearCount [gC2] (fun p => p.cards_in_deck) "X") :=
  ⟨by decide, card_count_ordering [gC2] (card_data_fold [gC2]) 2 rfl (by decide) "X"⟩

/-- A game violating the nesting invariant: the card `"x"` is played but
never drawn. -/
def gC2bad : Game :=
  { game_id := "bad2", datetime := none, datetime_started := none, duration_minutes := none,
    map := "", format := "", first_player := "1",
    players := [{ name := "a", winner := false, commander := "A", deck_name := "", turns := 3,
                  actions := 1, cards_in_deck := [], cards_drawn := [],
                  cards_played := [⟨"x", 1⟩] }] }

/-- Counterexample to C2 as stated: over an arbitrary input collection
(here one game whose player played a card it never drew),
`aggregate_card_stats` reports `played_count > drawn_count` for that
card. -/
theorem card_count_ordering_cex :
    aggregate_card_stats [gC2bad] = .tuple (card_data_fold [gC2bad]) 2
  ∧ ¬ ((getA (card_data_fold [gC2bad]) "x" cdDefault).played_count
        ≤ (getA (card_data_fold [gC2bad]) "x" cdDefault).drawn_count) :=
  ⟨rfl, by decide⟩

/-- `first_games + second_games` read off the internal per-commander
tallies (0 for an absent commander). -/
def fgsg0 (m : Assoc String FTCmd) (cmd : String) : ℕ :=
  (getA m cmd ⟨0, 0, 0, 0⟩).first_games + (getA m cmd ⟨0, 0, 0, 0⟩).second_games

/-- One game's contribution to a commander's `first_games +
second_games`: its appearances, counted only in explicit-first-player
games with exactly two players. -/
def ftContrib (g : Game) (cmd : String) : ℕ :=
  match g.players with
  | [q1, q2] =>
    if g.first_player = "1" ∨ g.first_player = "2"
    then [q1, q2].countP (fun p => p.commander == cmd) else 0
  | _ => 0

theorem fgsg0_upd_first (m : Assoc String FTCmd) (c cmd : String) (w : ℕ) :
    fgsg0 (updA m c ⟨0, 0, 0, 0⟩ (fun s =>
      { s with first_games := s.first_games + 1, first_wins := s.first_wins + w })) cmd
      = fgsg0 m cmd + (if c = cmd then 1 else 0) := by
  unfold fgsg0
  rw [getA_updA]
  by_cases h : c = cmd
  · subst h; simp; omega
  · simp [h]

theorem fgsg0_upd_second (m : Assoc String FTCmd) (c cmd : String) (w : ℕ) :
    fgsg0 (updA m c ⟨0, 0, 0, 0⟩ (fun s =>
      { s with second_games := s.second_games + 1, second_wins := s.second_wins + w })) cmd
      = fgsg0 m cmd + (if c = cmd then 1 else 0) := by
  unfold fgsg0
  rw [getA_updA]
  by_cases h : c = cmd
  · subst h; simp; omega
  · simp [h]

theorem ftStep_fgsg (acc : ℕ × Assoc String FTCmd) (g : Game) (cmd : String) (hcmd : cmd ≠ "") :
    fgsg0 (ftStep acc g).2 cmd = fgsg0 acc.2 cmd + ftContrib g cmd := by
  have h0 : ¬ ("" = cmd) := fun hc => hcmd hc.symm
  have hpair : ∀ (m : Assoc String FTCmd) (fp sp : Player),
      fgsg0 (if sp.commander = "" then
          (if fp.commander = "" then m
            else updA m fp.commander ⟨0, 0, 0, 0⟩ (fun s =>
              { s with first_games := s.first_games + 1
                       first_wins := s.first_wins + (if fp.winner then 1 else 0) }))
        else updA
          (if fp.commander = "" then m
            else updA m fp.commander ⟨0, 0, 0, 0⟩ (fun s =>
              { s with first_games := s.first_games + 1
                       first_wins := s.first_wins + (if fp.winner then 1 else 0) }))
          sp.commander ⟨0, 0, 0, 0⟩ (fun s =>
            { s with second_games := s.second_games + 1
                     second_wins := s.second_wins + (if sp.winner then 1 else 0) })) cmd
        = fgsg0 m cmd + ((if fp.commander = cmd then 1 else 0)
            + (if sp.commander = cmd then 1 else 0)) := by
    intro m fp sp
    by_cases hf : fp.commander = "" <;> by_cases hs : sp.commander = "" <;>
      simp [hf, hs, h0, fgsg0_upd_first, fgsg0_upd_second] <;> omega
  have hcnt : ∀ q1 q2 : Player,
      [q1, q2].countP (fun p => p.commander == cmd)
        = (if q1.commander = cmd then 1 else 0) + (if q2.commander = cmd then 1 else 0) := by
    intro q1 q2
    simp only [List.countP_cons, List.countP_nil]
    by_cases h1 : q1.commander = cmd <;> by_cases h2 : q2.commander = cmd <;> simp [h1, h2]
  unfold ftStep ftContrib
  rcases hp : g.players with _ | ⟨q1, tl⟩
  · simp
  rcases tl with _ | ⟨q2, tl2⟩
  · simp
  rcases tl2 with _ | ⟨q3, tl3⟩
  · by_cases h1 : g.first_player = "1"
    · simpa [h1, hcnt q1 q2] using hpair acc.2 q1 q2
    · by_cases h2 : g.first_player = "2"
      · have := hpair acc.2 q2 q1
        simp only [h1, h2] at *
        simpa [h1, h2, hcnt q1 q2, this] using by omega
      · simp [h1, h2]
  · simp

theorem ftFold_fgsg (gs : List Game) (acc : ℕ × Assoc String FTCmd) (cmd : String)
    (hcmd : cmd ≠ "") :
    fgsg0 ((gs.foldl ftStep acc).2) cmd
      = fgsg0 acc.2 cmd + (gs.map (fun g => ftContrib g cmd)).sum := by
  induction gs generalizing acc with
  | nil => simp
  | cons g gs ih =>
    simp only [List.foldl_cons, List.map_cons, List.sum_cons]
    rw [ih (ftStep acc g), ftStep_fgsg acc g cmd hcmd]
    omega

theorem ftContrib_eq_gate (g : Game) (cmd : String) :
    ftContrib g cmd
      = if (eligibleFP g && g.players.length == 2) = true
        then g.players.countP (fun p => p.commander == cmd) else 0 := by
  unfold ftContrib
  rcases hp : g.players with _ | ⟨q1, tl⟩
  · simp [hp]
  rcases tl with _ | ⟨q2, tl2⟩
  · simp [hp]
  rcases tl2 with _ | ⟨q3, tl3⟩
  · have hor : (g.first_player = "1" ∨ g.first_player = "2") ↔ eligibleFP g = true := by
      simp [eligibleFP]
    by_cases he : eligibleFP g
    · simp [hp, hor, he]
    · simp [hp, hor, he]
  · simp [hp]

theorem ftContrib_sum (games : List Game) (cmd : String) :
    ((games.filter (fun g => eligibleFP g)).map (fun g => ftContrib g cmd)).sum
      = eligAppearances games cmd := by
  unfold eligAppearances
  induction games with
  | nil => rfl
  | cons g gs ih =>
    by_cases he : eligibleFP g
    · by_cases hl : (g.players.length == 2) = true
      · have hcg : ftContrib g cmd = g.players.countP (fun p => p.commander == cmd) := by
          rw [ftContrib_eq_gate]; simp [he, hl]
        simp only [List.filter_cons, he, hl, Bool.and_self, if_true]
        simp only [he, Bool.true_and, hl, if_true, List.map_cons, List.sum_cons, ih, hcg]
      · have hcg : ftContrib g cmd = 0 := by
          rw [ftContrib_eq_gate]; simp [hl]
        simp [List.filter_cons, he, hl, hcg, ih]
    · simp [List.filter_cons, he, ih]

theorem ft_fgsg_of_map (t fw : ℕ) (wr : Option ℚ) (m : Assoc String FTCmd) (cmd : String) :
    ft_fgsg ⟨t, fw, wr, m.map (fun e => (e.1, ftOutOf e.2))⟩ cmd = fgsg0 m cmd := by
  unfold ft_fgsg fgsg0
  rw [lookA_map m ftOutOf cmd]
  cases h : lookA m cmd <;> simp [h, getA, ftOutOf]

/-- C3 (amended): `aggregate_first_turn` counts only games with explicit
`first_player` `"1"` or `"2"` into `total_games`, and for every
commander, `first_games + second_games` equals that commander's number
of player-appearances among first-turn-eligible games with exactly two
players (in a mirror match both of a commander's appearances count; a
3+-player eligible game contributes none). -/
theorem first_turn_counts (games : List Game) (cmd : String) (hcmd : cmd ≠ "") :
    (aggregate_first_turn games).total_games
      = (games.filter (fun g => eligibleFP g)).length
  ∧ ft_fgsg (aggregate_first_turn games) cmd = eligAppearances games cmd := by
  constructor
  · unfold aggregate_first_turn
    by_cases h0 : (games.filter (fun g => eligibleFP g)).length = 0
    · simp [h0]
    · simp [h0]
  · have key : ft_fgsg (aggregate_first_turn games) cmd
        = fgsg0 ((games.filter (fun g => eligibleFP g)).foldl ftStep (0, [])).2 cmd := by
      unfold aggregate_first_turn
      by_cases h0 : (games.filter (fun g => eligibleFP g)).length = 0
      · rw [List.length_eq_zero.mp h0]
        simp [h0, ft_fgsg, fgsg0, lookA, getA]
      · simp only [h0, if_false]
        exact ft_fgsg_of_map _ _ _ _ cmd
    rw [key, ftFold_fgsg _ _ _ hcmd, ftContrib_sum games cmd]
    simp [fgsg0, getA, lookA]

/-- A first-turn-eligible mirror match: both players run commander
`"A"`. -/
def gC3 : Game :=
  { game_id := "m3", datetime := none, datetime_started := none, duration_minutes := none,
    map := "", format := "", first_player := "1",
    players := [{ name := "a", winner := true, commander := "A", deck_name := "", turns := 3,
                  actions := 1, cards_in_deck := [], cards_drawn := [], cards_played := [] },
                { name := "b", winner := false, commander := "A", deck_name := "", turns := 3,
                  actions := 1, cards_in_deck := [], cards_drawn := [], cards_played := [] }] }

/-- Counterexample to C3 as stated: in a mirror match the commander
appears in one eligible game, yet `first_games + second_games = 2`. -/
theorem first_turn_counts_cex :
    ft_fgsg (aggregate_first_turn [gC3]) "A" ≠ ftGamesAppeared [gC3] "A" := by
  decide

/-- Witness for `first_turn_counts` at the concrete mirror-match
collection and commander `"A"`. -/
theorem first_turn_counts_witness :
    ("A" : String) ≠ ""
  ∧ ((aggregate_first_turn [gC3]).total_games
        = ([gC3].filter (fun g => eligibleFP g)).length
     ∧ ft_fgsg (aggregate_first_turn [gC3]) "A" = eligAppearances [gC3] "A") :=
  ⟨by decide, first_turn_counts [gC3] "A" (by decide)⟩

/-- Sum of bucket totals of a commander's bucket list. -/
def sumT (l : List WB) : ℕ := (l.map (fun b => b.total)).sum

/-- Sum of bucket totals read at a commander (under the `defaultdict`
zero bucket list). -/
def sgWB (len : ℕ) (m : Assoc String (List WB)) (cmd : String) : ℕ :=
  sumT (getA m cmd (List.replicate len ⟨0, 0⟩))

/-- Every stored bucket list has the fixed length of the aggregator. -/
def wfWB (len : ℕ) (m : Assoc String (List WB)) : Prop :=
  ∀ c l, lookA m c = some l → l.length = len

theorem bumpWB_length (l : List WB) (b : ℕ) (w : Bool) : (bumpWB l b w).length = l.length := by
  induction l generalizing b with
  | nil => rfl
  | cons x xs ih =>
    cases b with
    | zero => rfl
    | succ b => simp [bumpWB, ih]

theorem sumT_bumpWB (l : List WB) (b : ℕ) (w : Bool) (h : b < l.length) :
    sumT (bumpWB l b w) = sumT l + 1 := by
  induction l generalizing b with
  | nil => simp at h
  | cons x xs ih =>
    cases b with
    | zero => simp [bumpWB, sumT]; omega
    | succ b =>
      have := ih b (by simpa using h)
      simp [bumpWB, sumT] at this ⊢
      omega

theorem getA_length (len : ℕ) (m : Assoc String (List WB)) (c : String) (hwf : wfWB len m) :
    (getA m c (List.replicate len ⟨0, 0⟩)).length = len := by
  unfold getA
  cases h : lookA m c with
  | none => simp
  | some l => simpa using hwf c l h

theorem countP_ext {α : Type} (p q : α → Bool) (l : List α) (h : ∀ a, p a = q a) :
    l.countP p = l.countP q := by
  induction l with
  | nil => rfl
  | cons a l ih => simp [List.countP_cons, h a, ih]

theorem wbFold_sg (skip : Player → Bool) (bkt : Player → ℕ) (len : ℕ)
    (hbkt : ∀ p, bkt p < len) (ps : List Player) (m : Assoc String (List WB))
    (hwf : wfWB len m) (cmd : String) :
    wfWB len (ps.foldl (fun m p => if skip p then m
        else updA m p.commander (List.replicate len ⟨0, 0⟩)
          (fun l => bumpWB l (bkt p) p.winner)) m)
  ∧ sgWB len (ps.foldl (fun m p => if skip p then m
        else updA m p.commander (List.replicate len ⟨0, 0⟩)
          (fun l => bumpWB l (bkt p) p.winner)) m) cmd
      = sgWB len m cmd + ps.countP (fun p => !(skip p) && p.commander == cmd) := by
  induction ps generalizing m with
  | nil => exact ⟨hwf, by simp⟩
  | cons p ps ih =>
    by_cases hs : skip p
    · obtain ⟨ihw, ihs⟩ := ih m hwf
      rw [List.foldl_cons, if_pos hs]
      refine ⟨ihw, ?_⟩
      rw [ihs, List.countP_cons]
      simp [hs]
    · have hwf1 : wfWB len (updA m p.commander (List.replicate len ⟨0, 0⟩)
          (fun l => bumpWB l (bkt p) p.winner)) := by
        intro c l hl
        rw [lookA_updA] at hl
        by_cases hc : p.commander = c
        · rw [if_pos hc] at hl
          have := getA_length len m p.commander hwf
          cases hl
          rw [bumpWB_length]
          exact this
        · rw [if_neg hc] at hl
          exact hwf c l hl
      obtain ⟨ihw, ihs⟩ := ih _ hwf1
      rw [List.foldl_cons, if_neg hs]
      refine ⟨ihw, ?_⟩
      have hsg1 : sgWB len (updA m p.commander (List.replicate len ⟨0, 0⟩)
          (fun l => bumpWB l (bkt p) p.winner)) cmd
          = sgWB len m cmd + (if p.commander = cmd then 1 else 0) := by
        unfold sgWB
        rw [getA_updA]
        by_cases hc : p.commander = cmd
        · rw [if_pos hc, if_pos hc, sumT_bumpWB]
          · subst hc; rfl
          · rw [getA_length len m p.commander hwf]
            exact hbkt p
        · rw [if_neg hc, if_neg hc]
          omega
      rw [ihs, hsg1, List.countP_cons]
      by_cases hc : p.commander = cmd
      · simp [hs, hc]
        try omega
      · simp [hs, hc]
        try omega

theorem durBucket_lt (x : ℚ) : durBucket x < 4 := by
  unfold durBucket
  split_ifs <;> omega

theorem actBucket_lt (x : ℤ) : actBucket x < 5 := by
  unfold actBucket
  split_ifs <;> omega

theorem turnBucket_lt (x : ℤ) : turnBucket x < 5 := by
  unfold turnBucket
  split_ifs <;> omega

theorem qual_pred_ext (cmd : String) (hcmd : cmd ≠ "") (extra : Player → Bool) :
    ∀ p : Player, (!((p.commander == "") || extra p) && p.commander == cmd)
      = (p.commander == cmd && !(extra p)) := by
  intro p
  by_cases h : p.commander = cmd
  · have h2 : ¬ (p.commander = "") := by rw [h]; exact hcmd
    by_cases he : extra p <;> simp [h, h2, he, hcmd]
  · have hb : (p.commander == cmd) = false := by simp [h]
    simp [hb]

theorem durGameStep_sg (m : Assoc String (List WB)) (g : Game) (cmd : String)
    (hcmd : cmd ≠ "") (hwf : wfWB 4 m) :
    wfWB 4 (durGameStep m g)
  ∧ sgWB 4 (durGameStep m g) cmd
      = sgWB 4 m cmd + (match g.duration_minutes with
          | some _ => g.players.countP (fun p => p.commander == cmd)
          | none => 0) := by
  unfold durGameStep
  cases hd : g.duration_minutes with
  | none => exact ⟨hwf, by simp⟩
  | some dur =>
    dsimp only
    have hfun : (fun (m : Assoc String (List WB)) p => if p.commander = "" then m
        else updA m p.commander (List.replicate 4 ⟨0, 0⟩)
          (fun l => bumpWB l (durBucket dur) p.winner))
      = (fun m p => if (fun q : Player => q.commander == "") p then m
        else updA m p.commander (List.replicate 4 ⟨0, 0⟩)
          (fun l => bumpWB l ((fun _ : Player => durBucket dur) p) p.winner)) := by
      funext m p
      by_cases h : p.commander = "" <;> simp [h]
    rw [hfun]
    obtain ⟨hw, hs⟩ := wbFold_sg (fun q => q.commander == "") (fun _ => durBucket dur) 4
      (fun _ => durBucket_lt dur) g.players m hwf cmd
    refine ⟨hw, ?_⟩
    rw [hs]
    have := countP_ext (fun p : Player => !(p.commander == "") && p.commander == cmd)
      (fun p : Player => p.commander == cmd) g.players ?hext
    · omega
    case hext =>
      intro p
      by_cases h : p.commander = cmd
      · have h2 : ¬ (p.commander = "") := by rw [h]; exact hcmd
        simp [h, h2, hcmd]
      · have hb : (p.commander == cmd) = false := by simp [h]
        simp [hb]

theorem actGameStep_sg (m : Assoc String (List WB)) (g : Game) (cmd : String)
    (hcmd : cmd ≠ "") (hwf : wfWB 5 m) :
    wfWB 5 (actGameStep m g)
  ∧ sgWB 5 (actGameStep m g) cmd
      = sgWB 5 m cmd + g.players.countP (fun p => p.commander == cmd && !(p.actions == 0)) := by
  unfold actGameStep
  have hfun : (fun (m : Assoc String (List WB)) p => if p.commander = "" then m
      else if p.actions = 0 then m
      else updA m p.commander (List.replicate 5 ⟨0, 0⟩)
        (fun l => bumpWB l (actBucket p.actions) p.winner))
    = (fun m p => if (fun q : Player => (q.commander == "") || (q.actions == 0)) p then m
      else updA m p.commander (List.replicate 5 ⟨0, 0⟩)
        (fun l => bumpWB l ((fun q : Player => actBucket q.actions) p) p.winner)) := by
    funext m p
    by_cases h1 : p.commander = "" <;> by_cases h2 : p.actions = 0 <;> simp [h1, h2]
  rw [hfun]
  obtain ⟨hw, hs⟩ := wbFold_sg (fun q => (q.commander == "") || (q.actions == 0))
    (fun q => actBucket q.actions) 5 (fun q => actBucket_lt q.actions) g.players m hwf cmd
  refine ⟨hw, ?_⟩
  rw [hs, countP_ext _ _ g.players (qual_pred_ext cmd hcmd (fun q => q.actions == 0))]

theorem turnGameStep_sg (m : Assoc String (List WB)) (g : Game) (cmd : String)
    (hcmd : cmd ≠ "") (hwf : wfWB 5 m) :
    wfWB 5 (turnGameStep m g)
  ∧ sgWB 5 (turnGameStep m g) cmd
      = sgWB 5 m cmd + g.players.countP (fun p => p.commander == cmd && !(p.turns == 0)) := by
  unfold turnGameStep
  have hfun : (fun (m : Assoc String (List WB)) p => if p.commander = "" then m
      else if p.turns = 0 then m
      else updA m p.commander (List.replicate 5 ⟨0, 0⟩)
        (fun l => bumpWB l (turnBucket p.turns) p.winner))
    = (fun m p => if (fun q : Player => (q.commander == "") || (q.turns == 0)) p then m
      else updA m p.commander (List.replicate 5 ⟨0, 0⟩)
        (fun l => bumpWB l ((fun q : Player => turnBucket q.turns) p) p.winner)) := by
    funext m p
    by_cases h1 : p.commander = "" <;> by_cases h2 : p.turns = 0 <;> simp [h1, h2]
  rw [hfun]
  obtain ⟨hw, hs⟩ := wbFold_sg (fun q => (q.commander == "") || (q.turns == 0))
    (fun q => turnBucket q.turns) 5 (fun q => turnBucket_lt q.turns) g.players m hwf cmd
  refine ⟨hw, ?_⟩
  rw [hs, countP_ext _ _ g.players (qual_pred_ext cmd hcmd (fun q => q.turns == 0))]

theorem durFold_sg (games : List Game) (cmd : String) (hcmd : cmd ≠ "") :
    ∀ m, wfWB 4 m →
      wfWB 4 (games.foldl durGameStep m)
    ∧ sgWB 4 (games.foldl durGameStep m) cmd = sgWB 4 m cmd + durQual games cmd := by
  induction games with
  | nil => intro m hwf; exact ⟨hwf, by simp [durQual]⟩
  | cons g gs ih =>
    intro m hwf
    obtain ⟨hw1, hs1⟩ := durGameStep_sg m g cmd hcmd hwf
    obtain ⟨hw2, hs2⟩ := ih (durGameStep m g) hw1
    refine ⟨by simpa using hw2, ?_⟩
    simp only [List.foldl_cons]
    rw [hs2, hs1]
    simp only [durQual, List.map_cons, List.sum_cons]
    omega

theorem actFold_sg (games : List Game) (cmd : String) (hcmd : cmd ≠ "") :
    ∀ m, wfWB 5 m →
      wfWB 5 (games.foldl actGameStep m)
    ∧ sgWB 5 (games.foldl actGameStep m) cmd = sgWB 5 m cmd + actQual games cmd := by
  induction games with
  | nil => intro m hwf; exact ⟨hwf, by simp [actQual]⟩
  | cons g gs ih =>
    intro m hwf
    obtain ⟨hw1, hs1⟩ := actGameStep_sg m g cmd hcmd hwf
    obtain ⟨hw2, hs2⟩ := ih (actGameStep m g) hw1
    refine ⟨by simpa using hw2, ?_⟩
    simp only [List.foldl_cons]
    rw [hs2, hs1]
    simp only [actQual, List.map_cons, List.sum_cons]
    omega

theorem turnFold_sg (games : List Game) (cmd : String) (hcmd : cmd ≠ "") :
    ∀ m, wfWB 5 m →
      wfWB 5 (games.foldl turnGameStep m)
    ∧ sgWB 5 (games.foldl turnGameStep m) cmd = sgWB 5 m cmd + turnQual games cmd := by
  induction games with
  | nil => intro m hwf; exact ⟨hwf, by simp [turnQual]⟩
  | cons g gs ih =>
    intro m hwf
    obtain ⟨hw1, hs1⟩ := turnGameStep_sg m g cmd hcmd hwf
    obtain ⟨hw2, hs2⟩ := ih (turnGameStep m g) hw1
    refine ⟨by simpa using hw2, ?_⟩
    simp only [List.foldl_cons]
    rw [hs2, hs1]
    simp only [turnQual, List.map_cons, List.sum_cons]
    omega

theorem wfWB_nil (len : ℕ) : wfWB len [] := by
  intro c l hl
  simp [lookA] at hl

theorem mkWROut_games (l : List WB) :
    (mkWROut l).map (fun e => e.games) = l.map (fun b => b.total) := by
  simp [mkWROut]

theorem bucketGamesSum_map (buckets : List String) (stats : Assoc String (List WB))
    (cmd : String) :
    bucketGamesSum ⟨buckets, stats.map (fun e => (e.1, mkWROut e.2))⟩ cmd
      = (match lookA stats cmd with
          | some bl => sumT bl
          | none => 0) := by
  unfold bucketGamesSum
  simp only
  rw [lookA_map]
  cases h : lookA stats cmd with
  | none => simp
  | some bl => simp [mkWROut_games, sumT]

theorem sgWB_eq_match (len : ℕ) (stats : Assoc String (List WB)) (cmd : String) :
    sgWB len stats cmd
      = (match lookA stats cmd with
          | some bl => sumT bl
          | none => 0) := by
  unfold sgWB getA
  cases h : lookA stats cmd with
  | none => simp [sumT, List.map_replicate]
  | some bl => simp


theorem durBucket_partition (x : ℚ) :
    durInterval (durBucket x) x ∧ ∀ i, durInterval i x → i = durBucket x := by
  constructor
  · unfold durBucket
    split_ifs with h1 h2 h3
    · simpa [durInterval] using h1
    · simp only [durInterval]
      exact ⟨by linarith, h2⟩
    · simp only [durInterval]
      exact ⟨by linarith, h3⟩
    · simp only [durInterval]
      linarith
  · intro i hi
    unfold durBucket
    rcases i with _ | _ | _ | _ | j
    · simp only [durInterval] at hi
      rw [if_pos hi]
    · simp only [durInterval] at hi
      rw [if_neg (by linarith [hi.1]), if_pos hi.2]
    · simp only [durInterval] at hi
      rw [if_neg (by linarith [hi.1]), if_neg (by linarith [hi.1]), if_pos hi.2]
    · simp only [durInterval] at hi
      rw [if_neg (by linarith), if_neg (by linarith), if_neg (by linarith)]
    · simp only [durInterval] at hi

theorem actBucket_partition (x : ℤ) :
    actInterval (actBucket x) x ∧ ∀ i, actInterval i x → i = actBucket x := by
  constructor
  · unfold actBucket
    split_ifs with h1 h2 h3 h4
    · simpa [actInterval] using h1
    · simp only [actInterval]
      omega
    · simp only [actInterval]
      omega
    · simp only [actInterval]
      omega
    · simp only [actInterval]
      omega
  · intro i hi
    unfold actBucket
    rcases i with _ | _ | _ | _ | _ | j
    · simp only [actInterval] at hi
      rw [if_pos hi]
    · simp only [actInterval] at hi
      rw [if_neg (by omega), if_pos hi.2]
    · simp only [actInterval] at hi
      rw [if_neg (by omega), if_neg (by omega), if_pos hi.2]
    · simp only [actInterval] at hi
      rw [if_neg (by omega), if_neg (by omega), if_neg (by omega), if_pos hi.2]
    · simp only [actInterval] at hi
      rw [if_neg (by omega), if_neg (by omega), if_neg (by omega), if_neg (by omega)]
    · simp only [actInterval] at hi

theorem turnBucket_partition (x : ℤ) :
    turnInterval (turnBucket x) x ∧ ∀ i, turnInterval i x → i = turnBucket x := by
  constructor
  · unfold turnBucket
    split_ifs with h1 h2 h3 h4
    · simpa [turnInterval] using h1
    · simp only [turnInterval]
      omega
    · simp only [turnInterval]
      omega
    · simp only [turnInterval]
      omega
    · simp only [turnInterval]
      omega
  · intro i hi
    unfold turnBucket
    rcases i with _ | _ | _ | _ | _ | j
    · simp only [turnInterval] at hi
      rw [if_pos hi]
    · simp only [turnInterval] at hi
      rw [if_neg (by omega), if_pos hi.2]
    · simp only [turnInterval] at hi
      rw [if_neg (by omega), if_neg (by omega), if_pos hi.2]
    · simp only [turnInterval] at hi
      rw [if_neg (by omega), if_neg (by omega), if_neg (by omega), if_pos hi.2]
    · simp only [turnInterval] at hi
      rw [if_neg (by omega), if_neg (by omega), if_neg (by omega), if_neg (by omega)]
    · simp only [turnInterval] at hi

/-- C4: for the duration, actions and turns winrate aggregators, the
bucket boundaries partition the value space (every qualifying
player-appearance falls in exactly one bucket), the per-commander sum of
`games` across buckets equals the commander's qualifying appearance
count, and each output bucket carries `round(wins/total, 4)` as its
winrate -- `none` when the bucket is empty. -/
theorem bucket_winrates_ok (games : List Game) (cmd : String) (hcmd : cmd ≠ "") :
    (bucketGamesSum (aggregate_duration_winrates games) cmd = durQual games cmd
      ∧ bucketGamesSum (aggregate_action_winrates games) cmd = actQual games cmd
      ∧ bucketGamesSum (aggregate_turn_winrates games) cmd = turnQual games cmd)
  ∧ ((∀ x : ℚ, durInterval (durBucket x) x ∧ ∀ i, durInterval i x → i = durBucket x)
      ∧ (∀ x : ℤ, actInterval (actBucket x) x ∧ ∀ i, actInterval i x → i = actBucket x)
      ∧ (∀ x : ℤ, turnInterval (turnBucket x) x ∧ ∀ i, turnInterval i x → i = turnBucket x))
  ∧ ((∀ c bl, lookA (games.foldl durGameStep []) c = some bl →
        lookA (aggregate_duration_winrates games).commanders c = some (bl.map (fun b =>
          ⟨if 0 < b.total then some (pyRound ((b.wins : ℚ) / (b.total : ℚ)) 4) else none,
           b.total⟩)))
    ∧ (∀ c bl, lookA (games.foldl actGameStep []) c = some bl →
        lookA (aggregate_action_winrates games).commanders c = some (bl.map (fun b =>
          ⟨if 0 < b.total then some (pyRound ((b.wins : ℚ) / (b.total : ℚ)) 4) else none,
           b.total⟩)))
    ∧ (∀ c bl, lookA (games.foldl turnGameStep []) c = some bl →
        lookA (aggregate_turn_winrates games).commanders c = some (bl.map (fun b =>
          ⟨if 0 < b.total then some (pyRound ((b.wins : ℚ) / (b.total : ℚ)) 4) else none,
           b.total⟩)))) := by
  refine ⟨⟨?_, ?_, ?_⟩, ⟨durBucket_partition, actBucket_partition, turnBucket_partition⟩,
          ⟨?_, ?_, ?_⟩⟩
  · have h := (durFold_sg games cmd hcmd [] (wfWB_nil 4)).2
    unfold aggregate_duration_winrates
    rw [bucketGamesSum_map, ← sgWB_eq_match 4, h]
    simp [sgWB, sumT, getA, lookA]
  · have h := (actFold_sg games cmd hcmd [] (wfWB_nil 5)).2
    unfold aggregate_action_winrates
    rw [bucketGamesSum_map, ← sgWB_eq_match 5, h]
    simp [sgWB, sumT, getA, lookA]
  · have h := (turnFold_sg games cmd hcmd [] (wfWB_nil 5)).2
    unfold aggregate_turn_winrates
    rw [bucketGamesSum_map, ← sgWB_eq_match 5, h]
    simp [sgWB, sumT, getA, lookA]
  · intro c bl hbl
    unfold aggregate_duration_winrates
    simp only
    rw [lookA_map, hbl]
    rfl
  · intro c bl hbl
    unfold aggregate_action_winrates
    simp only
    rw [lookA_map, hbl]
    rfl
  · intro c bl hbl
    unfold aggregate_turn_winrates
    simp only
    rw [lookA_map, hbl]
    rfl

/-- A concrete game with a duration, used by the `bucket_winrates_ok`
witness. -/
def gC4 : Game :=
  { game_id := "w4", datetime := none, datetime_started := none, duration_minutes := some 15,
    map := "", format := "", first_player := "1",
    players := [{ name := "a", winner := true, commander := "A", deck_name := "", turns := 6,
                  actions := 40, cards_in_deck := [], cards_drawn := [], cards_played := [] },
                { name := "b", winner := false, commander := "B", deck_name := "", turns := 6,
                  actions := 45, cards_in_deck := [], cards_drawn := [], cards_played := [] }] }

/-- Witness for `bucket_winrates_ok` at a concrete one-game collection
and commander `"A"`. -/
theorem bucket_winrates_ok_witness :
    ("A" : String) ≠ ""
  ∧ bucketGamesSum (aggregate_duration_winrates [gC4]) "A" = durQual [gC4] "A"
  ∧ bucketGamesSum (aggregate_action_winrates [gC4]) "A" = actQual [gC4] "A"
  ∧ bucketGamesSum (aggregate_turn_winrates [gC4]) "A" = turnQual [gC4] "A" :=
  ⟨by decide, (bucket_winrates_ok [gC4] "A" (by decide)).1.1,
   (bucket_winrates_ok [gC4] "A" (by decide)).1.2.1,
   (bucket_winrates_ok [gC4] "A" (by decide)).1.2.2⟩

/-- C6: for a raw record that passes the earlier gates (non-"0" first
player, decoded players payload, coerced `numPlayers ≥ 2`, at least two
players), `clean_game` rejects exactly when some player's `turnsTaken`,
coerced to integer with non-numeric strings coercing to 0, is below the
configured minimum-turns threshold; otherwise the turns gate accepts and
a game is produced. -/
theorem turns_gate_rejects_iff (mt : ℤ) (raw : RawRecord) (pd : PlayersData)
    (h1 : ¬ pyStr (raw.firstPlayer.getD (.pStr "0")) = "0")
    (h2 : raw.rr_players = some pd)
    (h3 : ¬ coerceIntLike (pd.numPlayers.getD (.pInt 0)) < 2)
    (h4 : ¬ pd.pd_players.length < 2) :
    (clean_game mt raw = none
      ↔ ∃ p ∈ pd.pd_players, coerceIntLike (p.turnsTaken.getD (.pInt 0)) < mt) := by
  unfold clean_game
  rw [if_neg h1, h2]
  dsimp only
  rw [if_neg h3, if_neg h4]
  by_cases h5 : pd.pd_players.any
      (fun p => decide (coerceIntLike (p.turnsTaken.getD (.pInt 0)) < mt)) = true
  · rw [if_pos h5]
    rw [List.any_eq_true] at h5
    obtain ⟨p, hp, hlt⟩ := h5
    simp only [decide_eq_true_eq] at hlt
    exact ⟨fun _ => ⟨p, hp, hlt⟩, fun _ => rfl⟩
  · rw [if_neg h5]
    rw [List.any_eq_true] at h5
    push_neg at h5
    constructor
    · intro hc
      exact absurd hc (by simp)
    · intro ⟨p, hp, hlt⟩
      exact absurd (by simpa using h5 p hp : ¬ _ < mt) (by simpa using hlt)

/-- A decoded players payload passing all earlier gates, both players at
two turns. -/
def pdC6 : PlayersData :=
  ⟨some (.pInt 2),
   [⟨"a", some (.pBool true), ⟨"A", "d1", []⟩, some (.pInt 2), some (.pInt 5), [], []⟩,
    ⟨"b", some (.pBool false), ⟨"B", "d2", []⟩, some (.pStr "2"), some (.pInt 7), [], []⟩]⟩

/-- A raw record around `pdC6` with an explicit first player. -/
def rawC6 : RawRecord := ⟨"g6", some (.pStr "1"), "", "", some pdC6, "Dunes", "std"⟩

/-- Witness for `turns_gate_rejects_iff`: at threshold 2 with both
players at 2 coerced turns, the record is accepted (the rejection
equivalence holds with both sides false). -/
theorem turns_gate_rejects_iff_witness :
    (¬ pyStr (rawC6.firstPlayer.getD (.pStr "0")) = "0")
  ∧ rawC6.rr_players = some pdC6
  ∧ (¬ coerceIntLike (pdC6.numPlayers.getD (.pInt 0)) < 2)
  ∧ (¬ pdC6.pd_players.length < 2)
  ∧ (clean_game 2 rawC6 = none
      ↔ ∃ p ∈ pdC6.pd_players, coerceIntLike (p.turnsTaken.getD (.pInt 0)) < 2) :=
  ⟨by decide, rfl, by decide, by decide,
   turns_gate_rejects_iff 2 rawC6 pdC6 (by decide) rfl (by decide) (by decide)⟩

theorem foldl_updA_lookA {κ α : Type} [DecidableEq κ] (cs : List κ) (h : cs.Nodup)
    (d : α) (f : κ → α → α) (m : Assoc κ α) (x : κ) :
    lookA (cs.foldl (fun m c => updA m c d (f c)) m) x
      = if x ∈ cs then some (f x (getA m x d)) else lookA m x := by
  induction cs generalizing m with
  | nil => simp
  | cons c cs ih =>
    obtain ⟨hc, hcs⟩ := List.nodup_cons.mp h
    rw [List.foldl_cons, ih hcs]
    by_cases hx : x ∈ cs
    · rw [if_pos hx, if_pos (List.mem_cons_of_mem c hx)]
      have hxc : ¬ (c = x) := fun he => hc (he ▸ hx)
      unfold getA
      rw [lookA_updA, if_neg hxc]
    · rw [if_neg hx, lookA_updA]
      by_cases hxc : c = x
      · subst hxc
        rw [if_pos rfl, if_pos (List.mem_cons_self c cs)]
      · have hnx : ¬ (x ∈ c :: cs) := by
          intro hmem
          rcases List.mem_cons.mp hmem with he | hm
          · exact hxc he.symm
          · exact hx hm
        rw [if_neg hxc, if_neg hnx]

theorem appendAll_lookA {α : Type} (m : Assoc String (List α)) (cs : List String)
    (v : String → α) (h : cs.Nodup) (x : String) :
    lookA (appendAll m cs v) x
      = if x ∈ cs then some (getA m x [] ++ [v x]) else lookA m x := by
  unfold appendAll
  exact foldl_updA_lookA cs h [] (fun c l => l ++ [v c]) m x

/-- The running invariant of the commander-trends output loop: every
present series has the dates length, only known commanders are present,
and once a week has been included every known commander is present. -/
def ctInv (all_cmds : List String) (acc : List String × Assoc String (List ℚ)) : Prop :=
  (∀ c l, lookA acc.2 c = some l → l.length = acc.1.length)
  ∧ (∀ c, (lookA acc.2 c).isSome → c ∈ all_cmds)
  ∧ (acc.1 = [] ∨ ∀ c ∈ all_cmds, (lookA acc.2 c).isSome)

theorem ctStep_inv (all_cmds : List String) (hnd : all_cmds.Nodup)
    (acc : List String × Assoc String (List ℚ)) (hinv : ctInv all_cmds acc)
    (week : String) (v : String → ℚ) :
    ctInv all_cmds (acc.1 ++ [week], appendAll acc.2 all_cmds v) := by
  obtain ⟨h1, h2, h3⟩ := hinv
  refine ⟨?_, ?_, ?_⟩
  · intro c l hl
    rw [appendAll_lookA _ _ _ hnd] at hl
    by_cases hx : c ∈ all_cmds
    · rw [if_pos hx] at hl
      cases hl
      unfold getA
      cases hlk : lookA acc.2 c with
      | some l0 =>
        simp only [hlk, Option.getD_some]
        simp [h1 c l0 hlk]
      | none =>
        have hdates : acc.1 = [] := by
          rcases h3 with h3 | h3
          · exact h3
          · exact absurd (h3 c hx) (by simp [hlk])
        simp [hlk, hdates]
    · rw [if_neg hx] at hl
      exact absurd (h2 c (by simp [hl])) hx
  · intro c hs
    rw [appendAll_lookA _ _ _ hnd] at hs
    by_cases hx : c ∈ all_cmds
    · exact hx
    · rw [if_neg hx] at hs
      exact h2 c hs
  · right
    intro c hx
    rw [appendAll_lookA _ _ _ hnd, if_pos hx]
    rfl

theorem ctFold_inv (all_cmds : List String) (hnd : all_cmds.Nodup)
    (wt : Assoc String ℕ) (wkl : Assoc String (Assoc String ℕ)) (weeks : List String) :
    ∀ acc, ctInv all_cmds acc →
      ctInv all_cmds (weeks.foldl (fun acc week =>
        let total := getA wt week 0
        if total < 4 then acc
        else (acc.1 ++ [week],
              appendAll acc.2 all_cmds (fun cmd =>
                let cnt : ℕ := getA (getA wkl week []) cmd 0
                if 0 < total
                then pyRound (((cnt : ℚ) / (total : ℚ)) * 100) 1
                else 0))) acc) := by
  induction weeks with
  | nil => intro acc h; exact h
  | cons week weeks ih =>
    intro acc h
    rw [List.foldl_cons]
    by_cases ht : getA wt week 0 < 4
    · simp only [ht, if_true]
      exact ih acc h
    · simp only [ht, if_false]
      exact ih _ (ctStep_inv all_cmds hnd acc h week _)

/-- The dedup of the commander union is duplicate-free. -/
theorem all_cmds_nodup (wkl : Assoc String (Assoc String ℕ)) :
    ((wkl.map (fun e => e.2.map (fun x => x.1))).flatten.dedup).Nodup :=
  List.nodup_dedup _

theorem ct_series_len_of_inv (all_cmds : List String)
    (fin : List String × Assoc String (List ℚ)) (h : ctInv all_cmds fin) (c : String) :
    ctSeriesLen ⟨fin.1, fin.2⟩ c = fin.1.length := by
  unfold ctSeriesLen
  cases hl : lookA fin.2 c with
  | none => rfl
  | some l => exact h.1 c l hl

theorem commander_trends_series_len (games : List Game) (c : String) :
    ctSeriesLen (aggregate_commander_trends games) c
      = (aggregate_commander_trends games).dates.length := by
  unfold aggregate_commander_trends
  dsimp only
  apply ct_series_len_of_inv
  apply ctFold_inv _ (all_cmds_nodup _)
  exact ⟨fun c l hl => by simp [lookA] at hl, fun c hs => by simp [lookA] at hs, Or.inl rfl⟩

theorem lookA_map_const {α : Type} (e0 : α) (cs : List String) (x : String) :
    lookA (cs.map (fun c => (c, e0))) x = if x ∈ cs then some e0 else none := by
  induction cs with
  | nil => simp [lookA]
  | cons c cs ih =>
    by_cases h : c = x
    · subst h
      simp [lookA]
    · have hx : (x ∈ c :: cs) ↔ (x ∈ cs) := by
        constructor
        · intro hm
          rcases List.mem_cons.mp hm with he | hm2
          · exact absurd he.symm h
          · exact hm2
        · exact fun hm => List.mem_cons_of_mem c hm
      simp only [List.map_cons, lookA, if_neg h, ih]
      exact (if_congr hx rfl rfl).symm

/-- The running invariant of the winrate-trends output loop: every
present commander's four series have the dates length, and presence
coincides with membership in the commander union. -/
def wtInv (all_cmds : List String) (acc : List String × Assoc String WTSeries) : Prop :=
  (∀ c s, lookA acc.2 c = some s →
      s.winrate.length = acc.1.length ∧ s.games.length = acc.1.length
    ∧ s.winrate_no_mirror.length = acc.1.length ∧ s.games_no_mirror.length = acc.1.length)
  ∧ (∀ c, (lookA acc.2 c).isSome ↔ c ∈ all_cmds)

theorem wtStep_inv (all_cmds : List String) (hnd : all_cmds.Nodup)
    (acc : List String × Assoc String WTSeries) (hinv : wtInv all_cmds acc)
    (week : String) (f : String → WTSeries → WTSeries)
    (hf : ∀ c s, (f c s).winrate.length = s.winrate.length + 1
      ∧ (f c s).games.length = s.games.length + 1
      ∧ (f c s).winrate_no_mirror.length = s.winrate_no_mirror.length + 1
      ∧ (f c s).games_no_mirror.length = s.games_no_mirror.length + 1) :
    wtInv all_cmds (acc.1 ++ [week],
      all_cmds.foldl (fun m c => updA m c ⟨[], [], [], []⟩ (f c)) acc.2) := by
  obtain ⟨h1, h2⟩ := hinv
  refine ⟨?_, ?_⟩
  · intro c s hs
    rw [foldl_updA_lookA all_cmds hnd] at hs
    by_cases hx : c ∈ all_cmds
    · rw [if_pos hx] at hs
      cases hs
      have hsome : (lookA acc.2 c).isSome := (h2 c).mpr hx
      cases hlk : lookA acc.2 c with
      | none => rw [hlk] at hsome; simp at hsome
      | some s0 =>
        obtain ⟨l1, l2, l3, l4⟩ := h1 c s0 hlk
        obtain ⟨f1, f2, f3, f4⟩ := hf c s0
        have hg : getA acc.2 c ⟨[], [], [], []⟩ = s0 := by simp [getA, hlk]
        rw [hg]
        exact ⟨by simp [f1, l1], by simp [f2, l2], by simp [f3, l3], by simp [f4, l4]⟩
    · rw [if_neg hx] at hs
      exact absurd ((h2 c).mp (by simp [hs])) hx
  · intro c
    rw [foldl_updA_lookA all_cmds hnd]
    by_cases hx : c ∈ all_cmds
    · simp [hx]
    · simp only [if_neg hx]
      exact h2 c

theorem wtFold_inv (all_cmds : List String) (hnd : all_cmds.Nodup)
    (wt : Assoc String ℕ) (wkl : Assoc String (Assoc String WT4)) (weeks : List String) :
    ∀ acc, wtInv all_cmds acc →
      wtInv all_cmds (weeks.foldl (fun acc week =>
        if getA wt week 0 < 4 then acc
        else (acc.1 ++ [week],
              all_cmds.foldl (fun m cmd =>
                let b := getA (getA wkl week []) cmd ⟨0, 0, 0, 0⟩
                updA m cmd ⟨[], [], [], []⟩ (fun s =>
                  { winrate := s.winrate ++ [if 0 < b.t
                      then some (pyRound (((b.w : ℚ) / (b.t : ℚ)) * 100) 1) else none]
                    games := s.games ++ [b.t]
                    winrate_no_mirror := s.winrate_no_mirror ++ [if 0 < b.t_nm
                      then some (pyRound (((b.w_nm : ℚ) / (b.t_nm : ℚ)) * 100) 1) else none]
                    games_no_mirror := s.games_no_mirror ++ [b.t_nm] })) acc.2)) acc) := by
  induction weeks with
  | nil => intro acc h; exact h
  | cons week weeks ih =>
    intro acc h
    rw [List.foldl_cons]
    by_cases ht : getA wt week 0 < 4
    · simp only [ht, if_true]
      exact ih acc h
    · simp only [ht, if_false]
      apply ih
      exact wtStep_inv all_cmds hnd acc h week _ (fun c s => by simp)

theorem wt_lens_of_inv (all_cmds : List String)
    (fin : List String × Assoc String WTSeries) (h : wtInv all_cmds fin) (c : String) :
    wtLensOk ⟨fin.1, fin.2⟩ c := by
  unfold wtLensOk
  cases hl : lookA fin.2 c with
  | none => trivial
  | some s => exact h.1 c s hl

/-- C10: in the outputs of `aggregate_commander_trends` and
`aggregate_commander_winrate_trends`, every commander series present in
the commanders map has exactly the length of the dates list (one entry
per included week). -/
theorem trend_series_lengths (games : List Game) (c : String) :
    ctSeriesLen (aggregate_commander_trends games) c
      = (aggregate_commander_trends games).dates.length
  ∧ wtLensOk (aggregate_commander_winrate_trends games) c := by
  refine ⟨commander_trends_series_len games c, ?_⟩
  unfold aggregate_commander_winrate_trends
  dsimp only
  apply wt_lens_of_inv
  apply wtFold_inv _ (List.nodup_dedup _)
  constructor
  · intro c s hs
    rw [lookA_map_const] at hs
    by_cases hx : c ∈ ((games.foldl wtStep ([], [])).1.map (fun e => e.2.map (fun x => x.1))).flatten.dedup
    · rw [if_pos hx] at hs
      cases hs
      simp
    · rw [if_neg hx] at hs
      cases hs
  · intro c
    rw [lookA_map_const]
    by_cases hx : c ∈ ((games.foldl wtStep ([], [])).1.map (fun e => e.2.map (fun x => x.1))).flatten.dedup
    · simp [hx]
    · simp [hx]
